import Mathlib

/-!
Formal model of the confscout aggregation pipeline, covering
`scripts/utils/deduplication.py` (name normalisation, fuzzy duplicate
detection via `difflib.SequenceMatcher`, priority-driven merging and the
`deduplicate` driver), `_group_by_month` from `scripts/aggregate_data.py`,
and the static-table `geocode` from `scripts/utils/geocoder.py`, together
with proofs checking the specification's claims against this model.

Modelling conventions:
* Python dict-shaped conference records become the `Conference` structure
  whose fields are `Option`-valued; `none` models an absent key.
* Python strings are Lean `String`s.  `str.lower` is modelled on the ASCII
  fragment and the regex class `\s` by the six ASCII whitespace characters;
  this is exact on the alphabet that survives the `[^a-z0-9\s]` filter and on
  every string the repository's own data contains.
* Float literals that the code only stores, compares and truth-tests are
  modelled as exact rationals (`2.0 * matches / total` compared against the
  dyadic constant `0.75` agrees with the exact rational comparison for every
  feasible match count, so nothing is lost).
* Fallible code paths (`duplicates[0]` on an empty list, i.e. `IndexError`)
  return an `Option`.
* The in-place mutation performed by `_merge_conferences` through the
  aliased nested location dict (the base is a *shallow* `.copy()`) is
  modelled functionally: next to the merged record the function returns the
  post-call contents of the input group's records.
* `datetime.strptime` with formats `%Y-%m-%d` and `%B %Y` is modelled after
  CPython's `_strptime` regexes (`%Y` is exactly four digits, `%m`/`%d`
  accept one or two digits per their alternations, full match required)
  plus `datetime`'s calendar validation; `strftime("%B %Y")`/`"%Y-%m"` after
  glibc: unpadded year, zero-padded month, English month names.
-/

namespace ConfScout

/-! ### Python string primitives -/

/-- ASCII fragment of Python `str.lower`. -/
def pyLower (c : Char) : Char :=
  if 'A' ≤ c && c ≤ 'Z' then Char.ofNat (c.toNat + 32) else c

/-- The regex class `\s` and `str.strip`'s whitespace, ASCII fragment:
space, tab, newline, vertical tab, form feed, carriage return. -/
def isPyWs (c : Char) : Bool :=
  c == ' ' || c == '\t' || c == '\n' || c == Char.ofNat 11 || c == Char.ofNat 12 || c == '\r'

/-- Characters in `[a-z0-9]`. -/
def isLowerAlnum (c : Char) : Bool :=
  ('a' ≤ c && c ≤ 'z') || ('0' ≤ c && c ≤ '9')

/-- Characters kept by `re.sub(r"[^a-z0-9\s]", "", name)`. -/
def keepChar (c : Char) : Bool := isLowerAlnum c || isPyWs c

/-- `re.sub(r"\s+", " ", name)`: replace each maximal whitespace run by a
single space.  The Boolean flag records whether the previous character was
part of a whitespace run. -/
def collapseWs : Bool → List Char → List Char
  | _, [] => []
  | prevWs, c :: cs =>
    if isPyWs c then
      if prevWs then collapseWs true cs else ' ' :: collapseWs true cs
    else c :: collapseWs false cs

/-- Drop a maximal whitespace suffix (the right half of `str.strip`). -/
def dropTrailingWs : List Char → List Char
  | [] => []
  | c :: cs =>
    match dropTrailingWs cs with
    | [] => if isPyWs c then [] else [c]
    | r => c :: r

/-- Python `str.strip`. -/
def pyStrip (l : List Char) : List Char := dropTrailingWs (l.dropWhile isPyWs)

/-- `_normalize_name` from `deduplication.py`: empty in, empty out;
otherwise lowercase, drop characters outside `[a-z0-9\s]`, collapse
whitespace runs to single spaces, strip. -/
def _normalize_name (name : String) : String :=
  if name = "" then ""
  else String.mk (pyStrip (collapseWs false ((name.data.map pyLower).filter keepChar)))

/-! ### `difflib.SequenceMatcher` (with `isjunk=None`) -/

/-- The autojunk heuristic: an element of `b` is "popular" (treated as junk)
when `len(b) >= 200` and it occurs more than `len(b) // 100 + 1` times. -/
def isPopular (b : List Char) (c : Char) : Bool :=
  b.length ≥ 200 && b.count c > b.length / 100 + 1

/-- One row of the `find_longest_match` dynamic program: from the previous
row `j2len`, compute the new row for position `i` of `a` and fold the best
block seen so far (ties resolved towards the smallest `i`, then smallest
`j`, exactly as the scan order does in the original). -/
def flmRow (a b : List Char) (blo bhi i : Nat) (st : List Nat × (Nat × Nat × Nat)) :
    List Nat × (Nat × Nat × Nat) :=
  let j2len := st.1
  let cond : Nat → Bool := fun j =>
    match a[i]?, b[j]? with
    | some ai, some bj =>
      ai == bj && !isPopular b bj && decide (blo ≤ j) && decide (j < bhi)
    | _, _ => false
  let newj2len := (List.range b.length).map fun j =>
    if cond j then (if j = 0 then 0 else j2len.getD (j - 1) 0) + 1 else 0
  let best := (List.range b.length).foldl
    (fun best j =>
      if cond j then
        let k := newj2len.getD j 0
        if k > best.2.2 then (i + 1 - k, j + 1 - k, k) else best
      else best)
    st.2
  (newj2len, best)

/-- The extension loops of `find_longest_match`: extend the block to the
left while the adjacent characters are equal and their junk status matches
`junkOK`. -/
def extendLeft (a b : List Char) (junkOK : Bool) (alo blo : Nat) :
    Nat → Nat × Nat × Nat → Nat × Nat × Nat
  | 0, st => st
  | fuel + 1, (bi, bj, bs) =>
    if decide (bi > alo) && decide (bj > blo) &&
        (match a[bi - 1]?, b[bj - 1]? with
         | some x, some y => (isPopular b y == junkOK) && x == y
         | _, _ => false)
    then extendLeft a b junkOK alo blo fuel (bi - 1, bj - 1, bs + 1)
    else (bi, bj, bs)

/-- Rightward extension loops of `find_longest_match`. -/
def extendRight (a b : List Char) (junkOK : Bool) (ahi bhi : Nat) :
    Nat → Nat × Nat × Nat → Nat × Nat × Nat
  | 0, st => st
  | fuel + 1, (bi, bj, bs) =>
    if decide (bi + bs < ahi) && decide (bj + bs < bhi) &&
        (match a[bi + bs]?, b[bj + bs]? with
         | some x, some y => (isPopular b y == junkOK) && x == y
         | _, _ => false)
    then extendRight a b junkOK ahi bhi fuel (bi, bj, bs + 1)
    else (bi, bj, bs)

/-- `SequenceMatcher.find_longest_match` on the window
`a[alo:ahi]`, `b[blo:bhi]`. -/
def findLongestMatch (a b : List Char) (alo ahi blo bhi : Nat) : Nat × Nat × Nat :=
  let st := ((List.range' alo (ahi - alo)).foldl
    (fun st i => flmRow a b blo bhi i st)
    (List.replicate b.length 0, (alo, blo, 0))).2
  let st := extendLeft a b false alo blo (a.length + 1) st
  let st := extendRight a b false ahi bhi (b.length + 1) st
  let st := extendLeft a b true alo blo (a.length + 1) st
  extendRight a b true ahi bhi (b.length + 1) st

/-- Total size of the matching blocks of `get_matching_blocks`, written as
the recursion the queue in the original performs (the queue order does not
affect the sum).  The fuel is an upper bound on the recursion depth; each
recursive call strictly shrinks the window, so `a.length + b.length + 1`
always suffices at the top-level call. -/
def totalMatches (a b : List Char) : Nat → Nat × Nat × Nat × Nat → Nat
  | 0, _ => 0
  | fuel + 1, (alo, ahi, blo, bhi) =>
    let r := findLongestMatch a b alo ahi blo bhi
    let i := r.1
    let j := r.2.1
    let k := r.2.2
    if k = 0 then 0
    else
      k + (if alo < i && blo < j then totalMatches a b fuel (alo, i, blo, j) else 0) +
        (if i + k < ahi && j + k < bhi then totalMatches a b fuel (i + k, ahi, j + k, bhi) else 0)

/-- `SequenceMatcher(None, a, b).ratio()` as an exact rational:
`2 * M / T` where `M` is the total matched size and `T` the total length,
and `1` when both sequences are empty. -/
def similarityScore (a b : List Char) : ℚ :=
  let m := totalMatches a b (a.length + b.length + 1) (0, a.length, 0, b.length)
  let t := a.length + b.length
  if t = 0 then 1 else mkRat (2 * m) t

/-! ### Dates (`datetime.strptime(·, "%Y-%m-%d")` and day arithmetic) -/

/-- Numeric value of an ASCII digit (the characters the regex class `\d`
matches on ASCII input). -/
def digitVal (c : Char) : Option Nat :=
  if c = '0' then some 0
  else if c = '1' then some 1
  else if c = '2' then some 2
  else if c = '3' then some 3
  else if c = '4' then some 4
  else if c = '5' then some 5
  else if c = '6' then some 6
  else if c = '7' then some 7
  else if c = '8' then some 8
  else if c = '9' then some 9
  else none

/-- Gregorian leap year. -/
def isLeap (y : Nat) : Bool :=
  y % 4 == 0 && (y % 100 != 0 || y % 400 == 0)

/-- Days in a month (months numbered 1–12). -/
def daysInMonth (y m : Nat) : Nat :=
  match m with
  | 1 => 31 | 2 => if isLeap y then 29 else 28 | 3 => 31 | 4 => 30
  | 5 => 31 | 6 => 30 | 7 => 31 | 8 => 31 | 9 => 30 | 10 => 31
  | 11 => 30 | 12 => 31 | _ => 0

/-- The month field of `%Y-%m-%d`: the regex alternation
`1[0-2]|0[1-9]|[1-9]` followed by the literal `-`, with CPython's
backtracking behaviour (two digits followed by a dash must form a valid
two-digit month, since retrying with one digit leaves a digit where the
dash is required). -/
def parseMonthPart : List Char → Option (Nat × List Char)
  | a :: b :: '-' :: r =>
    match digitVal a, digitVal b with
    | some da, some db =>
      if 1 ≤ da * 10 + db ∧ da * 10 + db ≤ 12 then some (da * 10 + db, r) else none
    | _, _ => none
  | a :: '-' :: r =>
    match digitVal a with
    | some da => if 1 ≤ da then some (da, r) else none
    | none => none
  | _ => none

/-- The day field of `%Y-%m-%d` at the end of the string: the alternation
`3[01]|[12]\d|0[1-9]|[1-9]`, with the full-match requirement (leftover
characters make `strptime` raise). -/
def parseDayPart : List Char → Option Nat
  | [a, b] =>
    match digitVal a, digitVal b with
    | some da, some db =>
      if 1 ≤ da * 10 + db ∧ da * 10 + db ≤ 31 then some (da * 10 + db) else none
    | _, _ => none
  | [a] =>
    match digitVal a with
    | some da => if 1 ≤ da then some da else none
    | none => none
  | _ => none

/-- `datetime.strptime(s, "%Y-%m-%d")`: `%Y` is exactly four digits, then
the calendar validation done by the `datetime` constructor (`MINYEAR = 1`,
day bounded by the month's length). -/
def parseDate (s : String) : Option (Nat × Nat × Nat) :=
  match s.data with
  | c1 :: c2 :: c3 :: c4 :: '-' :: rest => do
    let d1 ← digitVal c1
    let d2 ← digitVal c2
    let d3 ← digitVal c3
    let d4 ← digitVal c4
    let y := ((d1 * 10 + d2) * 10 + d3) * 10 + d4
    let (mo, rest2) ← parseMonthPart rest
    let day ← parseDayPart rest2
    if 1 ≤ y ∧ day ≤ daysInMonth y mo then some (y, mo, day) else none
  | _ => none

/-- Days before month `m` in year `y`. -/
def daysBeforeMonth (y m : Nat) : Nat :=
  (List.range (m - 1)).foldl (fun acc i => acc + daysInMonth y (i + 1)) 0

/-- Proleptic Gregorian day number (0 for 0001-01-01), so that differences
agree with `(d1 - d2).days` on midnight datetimes. -/
def dayNumber : Nat × Nat × Nat → Nat
  | (y, m, d) =>
    (y - 1) * 365 + ((y - 1) / 4 - (y - 1) / 100 + (y - 1) / 400) + daysBeforeMonth y m + (d - 1)

/-- `_date_diff` from `deduplication.py`: absolute day difference, `0` when
either string fails to parse (the bare `except`). -/
def _date_diff (date1 date2 : String) : Int :=
  match parseDate date1, parseDate date2 with
  | some p1, some p2 => (((dayNumber p1 : Int) - dayNumber p2).natAbs : Int)
  | _, _ => 0

/-! ### The data model -/

/-- The `cfp` payload is a dict the merge code only truth-tests and copies;
we model it as its key/value pairs. -/
abbrev Cfp := List (String × String)

/-- The nested `location` dict.  A `none` field models an absent key. -/
structure Location where
  city : Option String := none
  country : Option String := none
  lat : Option ℚ := none
  lng : Option ℚ := none
deriving DecidableEq, Repr

/-- A conference record (`ConferenceRecord` in the spec): a dict whose keys
may be absent (`none`).  `location = none` models a record without a
`location` key. -/
structure Conference where
  name : Option String := none
  url : Option String := none
  startDate : Option String := none
  endDate : Option String := none
  cfp : Option Cfp := none
  twitter : Option String := none
  location : Option Location := none
  source : Option String := none
  sources : Option (List String) := none
deriving DecidableEq, Repr

/-- Python truthiness of an optional string (`None` and `""` are falsy). -/
def strTruthy : Option String → Bool
  | none => false
  | some s => s != ""

/-- Python truthiness of an optional dict (`None` and `{}` are falsy). -/
def cfpTruthy : Option Cfp → Bool
  | none => false
  | some d => !d.isEmpty

/-- Python truthiness of an optional number (`None` and `0` are falsy). -/
def numTruthy : Option ℚ → Bool
  | none => false
  | some q => q != 0

/-- Location sub-field accessors through `get("location", {})`. -/
def locCity (c : Conference) : Option String := ((c.location.getD {}).city)

/-- See `locCity`. -/
def locCountry (c : Conference) : Option String := ((c.location.getD {}).country)

/-- See `locCity`. -/
def locLat (c : Conference) : Option ℚ := ((c.location.getD {}).lat)

/-- See `locCity`. -/
def locLng (c : Conference) : Option ℚ := ((c.location.getD {}).lng)

/-! ### Source priority and sorting -/

/-- The `SOURCE_PRIORITY` table. -/
def SOURCE_PRIORITY : List (String × Nat) :=
  [("developers.events", 100), ("dblp", 90), ("ieee", 85), ("tech-conferences", 80),
   ("scraly", 70), ("papercall", 60), ("github-issues", 50)]

/-- `SOURCE_PRIORITY.get(c.get("source", ""), 0)`. -/
def sourcePriority (c : Conference) : Nat :=
  (SOURCE_PRIORITY.lookup (c.source.getD "")).getD 0

/-- `list.sort(key=priority, reverse=True)`: a stable descending sort by
source priority (`insertionSort` with this relation is stable exactly like
CPython's sort). -/
def sortByPriorityDesc (l : List Conference) : List Conference :=
  l.insertionSort (fun a b => sourcePriority b ≤ sourcePriority a)

/-! ### `_merge_conferences` -/

/-- The fill-missing-only update: take the donor's value only when the
current value is falsy and the donor's is truthy. -/
def fillIf {α : Type} (tr : α → Bool) (b d : α) : α :=
  if !tr b && tr d then d else b

/-- One location merge: `base_loc = base.get("location", {})` is a fresh,
immediately discarded dict when the base has no `location` key, so in that
case nothing is recorded; otherwise each sub-field is filled if missing. -/
def mergeLoc (bl dl : Option Location) : Option Location :=
  match bl with
  | none => none
  | some l =>
    let d := dl.getD {}
    some { city := fillIf strTruthy l.city d.city
           country := fillIf strTruthy l.country d.country
           lat := fillIf numTruthy l.lat d.lat
           lng := fillIf numTruthy l.lng d.lng }

/-- The body of the `for dup in duplicates[1:]` loop: fill `startDate`,
`endDate`, `cfp`, the location sub-fields and `twitter` if missing. -/
def mergeStep (base dup : Conference) : Conference :=
  { base with
    startDate := fillIf strTruthy base.startDate dup.startDate
    endDate := fillIf strTruthy base.endDate dup.endDate
    cfp := fillIf cfpTruthy base.cfp dup.cfp
    location := mergeLoc base.location dup.location
    twitter := fillIf strTruthy base.twitter dup.twitter }

/-- `list(set(d.get("source", "") for d in duplicates if d.get("source")))`.
CPython's set iteration order is unspecified (hash-randomised), so we fix a
canonical duplicate-free order; every claim about `sources` is stated up to
set membership. -/
def collectSources (ds : List Conference) : List String :=
  ((ds.filterMap fun d => d.source).filter fun s => s != "").dedup

/-- `_merge_conferences`.  A singleton input is returned as is (the very
same object, nothing mutated).  Otherwise the group is sorted descending by
priority in place, the head is *shallow*-copied, missing fields are filled
in and `sources` is set.  `none` models the `IndexError` an empty input
would raise on `duplicates[0]`.

The second component is the post-call contents of the group's records (in
the post-sort order): because the copy is shallow, the nested location dict
of the head record is aliased by the base, so when the head has a
`location` key the fills mutate it in place and it ends up holding the
merged location; every other record is untouched. -/
def _merge_conferences (duplicates : List Conference) : Option (Conference × List Conference) :=
  match duplicates with
  | [] => none
  | [c] => some (c, [c])
  | _ :: _ :: _ =>
    match sortByPriorityDesc duplicates with
    | [] => none
    | b0 :: rest =>
      let filled := rest.foldl mergeStep b0
      let merged := { filled with sources := some (collectSources (b0 :: rest)) }
      let postBase := if b0.location.isSome then { b0 with location := filled.location } else b0
      some (merged, postBase :: rest)

/-! ### `_is_duplicate` and the `deduplicate` driver -/

/-- `_is_duplicate` from `deduplication.py`. -/
def _is_duplicate (conf1 conf2 : Conference) : Bool :=
  let name1 := _normalize_name (conf1.name.getD "")
  let name2 := _normalize_name (conf2.name.getD "")
  let similarity := similarityScore name1.data name2.data
  if similarity < mkRat 3 4 then false
  else if strTruthy conf1.startDate && strTruthy conf2.startDate then
    if (_date_diff (conf1.startDate.getD "") (conf2.startDate.getD "")).natAbs > 7 then false
    else true
  else true

/-- Append `c` to the bucket of key `k` (Python dict grouping with
insertion-ordered keys). -/
def addToGroups {α : Type} : List (String × List α) → String → α → List (String × List α)
  | [], k, c => [(k, [c])]
  | (k', cs) :: rest, k, c =>
    if k' = k then (k', cs ++ [c]) :: rest else (k', cs) :: addToGroups rest k c

/-- Group a list by a string key, preserving first-seen key order. -/
def groupFold {α : Type} (key : α → String) (l : List α) : List (String × List α) :=
  l.foldl (fun gs c => addToGroups gs (key c) c) []

/-- The grouping key of `deduplicate`: first 20 characters of the
normalised name. -/
def dedupKey (c : Conference) : String :=
  (_normalize_name (c.name.getD "")).take 20

/-- The greedy, non-transitive clustering of a (sorted) bucket: the first
unused record is the anchor, every later unused record matching it is
consumed into its cluster, and the scan restarts on the leftovers. -/
def findClusters : List Conference → List (List Conference)
  | [] => []
  | c :: rest =>
    (c :: rest.filter fun o => _is_duplicate c o) ::
      findClusters (rest.filter fun o => !_is_duplicate c o)
termination_by l => l.length
decreasing_by
  simp only [List.length_cons]
  exact Nat.lt_succ_of_le (List.length_filter_le _ _)

/-- One bucket of `deduplicate`: singleton buckets pass through unchanged;
larger buckets are sorted by descending priority, clustered greedily, and
each cluster merged. -/
def dedupGroup (group : List Conference) : Option (List Conference) :=
  if group.length = 1 then some group
  else
    (findClusters (sortByPriorityDesc group)).mapM fun cl =>
      (_merge_conferences cl).map Prod.fst

/-- `deduplicate` from `deduplication.py`. -/
def deduplicate (conferences : List Conference) : Option (List Conference) :=
  if conferences = [] then some []
  else do
    let merged ← (groupFold dedupKey conferences).mapM fun g => dedupGroup g.2
    pure merged.flatten

/-! ### `_group_by_month` from `aggregate_data.py` -/

/-- English month names (the C locale used by the pipeline). -/
def monthName : Nat → String
  | 1 => "January" | 2 => "February" | 3 => "March" | 4 => "April"
  | 5 => "May" | 6 => "June" | 7 => "July" | 8 => "August"
  | 9 => "September" | 10 => "October" | 11 => "November" | 12 => "December"
  | _ => ""

/-- ASCII digit with value `n` (for `n ≤ 9`). -/
def digitChar (n : Nat) : Char := Char.ofNat (48 + n)

/-- Decimal digits of `n`, most significant first; the constant fuel `20`
covers every number the pipeline can print. -/
def natDecChars : Nat → Nat → List Char
  | 0, _ => []
  | fuel + 1, n =>
    if n < 10 then [digitChar n]
    else natDecChars fuel (n / 10) ++ [digitChar (n % 10)]

/-- Decimal notation of `n` (glibc `%Y` prints the year unpadded). -/
def natDecStr (n : Nat) : String := String.mk (natDecChars 20 n)

/-- `dt.strftime("%B %Y")`. -/
def formatMonthYear (y m : Nat) : String := monthName m ++ " " ++ natDecStr y

/-- The month key of a record: `"TBD"` for a falsy or unparseable
`startDate`, otherwise `"Month Year"`. -/
def monthKeyOf (c : Conference) : String :=
  match c.startDate with
  | none => "TBD"
  | some s =>
    if s = "" then "TBD"
    else
      match parseDate s with
      | none => "TBD"
      | some (y, m, _) => formatMonthYear y m

/-- The within-month sort key: `c.get("startDate") or "9999-12-31"`. -/
def withinKey (c : Conference) : String :=
  match c.startDate with
  | none => "9999-12-31"
  | some s => if s = "" then "9999-12-31" else s

/-- Case-insensitive prefix stripping (the regex produced by `strptime` is
compiled with `IGNORECASE`). -/
def dropCIPrefix : List Char → List Char → Option (List Char)
  | [], l => some l
  | _ :: _, [] => none
  | p :: ps, c :: cs => if pyLower p = pyLower c then dropCIPrefix ps cs else none

/-- The month-name table for `%B`. -/
def monthNames : List (String × Nat) :=
  [("January", 1), ("February", 2), ("March", 3), ("April", 4), ("May", 5), ("June", 6),
   ("July", 7), ("August", 8), ("September", 9), ("October", 10), ("November", 11),
   ("December", 12)]

/-- `datetime.strptime(m, "%B %Y")` restricted to what `month_sort_key`
needs: a full month name, a space, exactly four digits, end of string, and
the `datetime` constructor's `year >= 1` check. -/
def parseMonthYear (s : String) : Option (Nat × Nat) :=
  monthNames.findSome? fun nm =>
    match dropCIPrefix nm.1.data s.data with
    | some (sp :: c1 :: c2 :: c3 :: c4 :: []) =>
      if sp = ' ' then do
        let d1 ← digitVal c1
        let d2 ← digitVal c2
        let d3 ← digitVal c3
        let d4 ← digitVal c4
        if 1 ≤ ((d1 * 10 + d2) * 10 + d3) * 10 + d4 then
          some (((d1 * 10 + d2) * 10 + d3) * 10 + d4, nm.2)
        else none
      else none
    | _ => none

/-- `month_sort_key` from `aggregate_data.py`: `"TBD"` and unparseable keys
map to `"9999-12"`, a parsed key to `dt.strftime("%Y-%m")` (unpadded year,
zero-padded month). -/
def monthSortKey (m : String) : String :=
  if m = "TBD" then "9999-12"
  else
    match parseMonthYear m with
    | none => "9999-12"
    | some (y, mo) => natDecStr y ++ "-" ++ String.mk [digitChar (mo / 10), digitChar (mo % 10)]

/-- `_group_by_month`: group by month key (insertion-ordered), sort each
bucket by `startDate`-or-sentinel, then sort the months by
`month_sort_key`; both sorts are CPython's stable sort. -/
def _group_by_month (conferences : List Conference) : List (String × List Conference) :=
  let grouped := groupFold monthKeyOf conferences
  let grouped := grouped.map fun g =>
    (g.1, g.2.insertionSort fun a b => withinKey a ≤ withinKey b)
  grouped.insertionSort fun a b => monthSortKey a.1 ≤ monthSortKey b.1

/-! ### `geocode` from `geocoder.py` -/

/-- The static city table, in source (= dict insertion) order; the order is
observable through the partial-match loop. -/
def CITY_COORDS : List (String × ℚ × ℚ) :=
  [("paris", 48.8566, 2.3522), ("london", 51.5074, -0.1278), ("berlin", 52.5200, 13.4050),
   ("amsterdam", 52.3676, 4.9041), ("barcelona", 41.3851, 2.1734), ("madrid", 40.4168, -3.7038),
   ("lisbon", 38.7223, -9.1393), ("vienna", 48.2082, 16.3738), ("zurich", 47.3769, 8.5417),
   ("geneva", 46.2044, 6.1432), ("brussels", 50.8503, 4.3517), ("copenhagen", 55.6761, 12.5683),
   ("stockholm", 59.3293, 18.0686), ("oslo", 59.9139, 10.7522), ("helsinki", 60.1699, 24.9384),
   ("prague", 50.0755, 14.4378), ("warsaw", 52.2297, 21.0122), ("dublin", 53.3498, -6.2603),
   ("milan", 45.4642, 9.1900), ("rome", 41.9028, 12.4964), ("munich", 48.1351, 11.5820),
   ("lyon", 45.7640, 4.8357), ("toulouse", 43.6047, 1.4442), ("grenoble", 45.1885, 5.7245),
   ("nantes", 47.2184, -1.5536), ("bordeaux", 44.8378, -0.5792), ("sofia", 42.6977, 23.3219),
   ("athens", 37.9838, 23.7275), ("krakow", 50.0647, 19.9450),
   ("san francisco", 37.7749, -122.4194), ("new york", 40.7128, -74.0060),
   ("los angeles", 34.0522, -118.2437), ("seattle", 47.6062, -122.3321),
   ("austin", 30.2672, -97.7431), ("chicago", 41.8781, -87.6298),
   ("boston", 42.3601, -71.0589), ("denver", 39.7392, -104.9903),
   ("las vegas", 36.1699, -115.1398), ("portland", 45.5051, -122.6750),
   ("toronto", 43.6532, -79.3832), ("montreal", 45.5017, -73.5673),
   ("vancouver", 49.2827, -123.1207),
   ("tokyo", 35.6762, 139.6503), ("singapore", 1.3521, 103.8198),
   ("bangalore", 12.9716, 77.5946), ("mumbai", 19.0760, 72.8777),
   ("delhi", 28.7041, 77.1025), ("sydney", 33.8688, 151.2093),
   ("melbourne", -37.8136, 144.9631), ("seoul", 37.5665, 126.9780),
   ("shanghai", 31.2304, 121.4737), ("hong kong", 22.3193, 114.1694),
   ("bangkok", 13.7563, 100.5018), ("jakarta", -6.2088, 106.8456),
   ("sao paulo", -23.5505, -46.6333), ("buenos aires", -34.6037, -58.3816),
   ("santiago", -33.4489, -70.6693),
   ("cape town", -33.9249, 18.4241), ("lagos", 6.5244, 3.3792), ("nairobi", -1.2921, 36.8219),
   ("dubai", 25.2048, 55.2708), ("tel aviv", 32.0853, 34.7818)]

/-- The country fallback table, in source order. -/
def COUNTRY_COORDS : List (String × ℚ × ℚ) :=
  [("usa", 37.0902, -95.7129), ("united states", 37.0902, -95.7129),
   ("uk", 55.3781, -3.4360), ("united kingdom", 55.3781, -3.4360),
   ("germany", 51.1657, 10.4515), ("france", 46.2276, 2.2137),
   ("spain", 40.4637, -3.7492), ("italy", 41.8719, 12.5674),
   ("netherlands", 52.1326, 5.2913), ("belgium", 50.5039, 4.4699),
   ("switzerland", 46.8182, 8.2275), ("austria", 47.5162, 14.5501),
   ("poland", 51.9194, 19.1451), ("sweden", 60.1282, 18.6435),
   ("norway", 60.4720, 8.4689), ("denmark", 56.2639, 9.5018),
   ("finland", 61.9241, 25.7482), ("canada", 56.1304, -106.3468),
   ("australia", -25.2744, 133.7751), ("japan", 36.2048, 138.2529),
   ("india", 20.5937, 78.9629), ("singapore", 1.3521, 103.8198),
   ("brazil", -14.2350, -51.9253), ("mexico", 23.6345, -102.5528)]

/-- Python's substring test `needle in hay`. -/
def isSubOf (needle hay : List Char) : Bool :=
  if needle.isPrefixOf hay then true
  else
    match hay with
    | [] => false
    | _ :: t => isSubOf needle t

/-- `city.lower().strip()`. -/
def pyStripLower (s : String) : String := String.mk (pyStrip (s.data.map pyLower))

/-- `geocode` from `geocoder.py`: exact city hit, then the partial-match
loop over the city table, then exact country hit, then partial country
match, else `None`. -/
def geocode (city country : String) : Option (ℚ × ℚ) :=
  let cityLower := if city = "" then "" else pyStripLower city
  let countryLower := if country = "" then "" else pyStripLower country
  match CITY_COORDS.lookup cityLower with
  | some coords => some coords
  | none =>
    match CITY_COORDS.find? (fun kv =>
        isSubOf kv.1.data cityLower.data || isSubOf cityLower.data kv.1.data) with
    | some kv => some kv.2
    | none =>
      match COUNTRY_COORDS.lookup countryLower with
      | some coords => some coords
      | none =>
        match COUNTRY_COORDS.find? (fun kv => isSubOf kv.1.data countryLower.data) with
        | some kv => some kv.2
        | none => none

/-! ### Lemmas about the fill-missing-only merge -/

theorem fillIf_of_truthy {α : Type} (tr : α → Bool) (b d : α) (h : tr b = true) :
    fillIf tr b d = b := by
  simp [fillIf, h]

theorem fillIf_change {α : Type} (tr : α → Bool) (b d : α) (h : fillIf tr b d ≠ b) :
    tr b = false ∧ fillIf tr b d = d ∧ tr d = true := by
  unfold fillIf at *
  split at h
  · next hc =>
    simp only [Bool.and_eq_true, Bool.not_eq_true'] at hc
    simp [hc.1, hc.2, fillIf]
  · exact absurd rfl h

theorem fillIf_fills {α : Type} (tr : α → Bool) (b d : α) (hb : tr b = false)
    (hd : tr d = true) : fillIf tr b d = d := by
  simp [fillIf, hb, hd]

theorem mergeStep_location_isSome (b d : Conference) (h : b.location.isSome = true) :
    (mergeStep b d).location.isSome = true := by
  cases hb : b.location with
  | none => rw [hb] at h; cases h
  | some l => simp [mergeStep, mergeLoc, hb]

theorem locCity_mergeStep (b d : Conference) :
    locCity (mergeStep b d) =
      if b.location.isSome then fillIf strTruthy (locCity b) (locCity d) else locCity b := by
  cases hb : b.location <;> simp [mergeStep, mergeLoc, locCity, hb]

theorem locCountry_mergeStep (b d : Conference) :
    locCountry (mergeStep b d) =
      if b.location.isSome then fillIf strTruthy (locCountry b) (locCountry d)
      else locCountry b := by
  cases hb : b.location <;> simp [mergeStep, mergeLoc, locCountry, hb]

theorem locLat_mergeStep (b d : Conference) :
    locLat (mergeStep b d) =
      if b.location.isSome then fillIf numTruthy (locLat b) (locLat d) else locLat b := by
  cases hb : b.location <;> simp [mergeStep, mergeLoc, locLat, hb]

theorem locLng_mergeStep (b d : Conference) :
    locLng (mergeStep b d) =
      if b.location.isSome then fillIf numTruthy (locLng b) (locLng d) else locLng b := by
  cases hb : b.location <;> simp [mergeStep, mergeLoc, locLng, hb]

section FoldFill

variable {α : Type} (val : Conference → α) (tr : α → Bool)

theorem foldl_mergeStep_keep
    (hkeep : ∀ b d, tr (val b) = true → val (mergeStep b d) = val b)
    (rest : List Conference) (b0 : Conference) (h : tr (val b0) = true) :
    val (rest.foldl mergeStep b0) = val b0 := by
  induction rest generalizing b0 with
  | nil => rfl
  | cons d rest ih =>
    have h1 : val (mergeStep b0 d) = val b0 := hkeep b0 d h
    have h2 : tr (val (mergeStep b0 d)) = true := by rw [h1]; exact h
    rw [List.foldl_cons, ih _ h2, h1]

theorem foldl_mergeStep_change
    (hkeep : ∀ b d, tr (val b) = true → val (mergeStep b d) = val b)
    (hchange : ∀ b d, val (mergeStep b d) ≠ val b →
      tr (val b) = false ∧ val (mergeStep b d) = val d ∧ tr (val d) = true)
    (rest : List Conference) (b0 : Conference)
    (h : val (rest.foldl mergeStep b0) ≠ val b0) :
    tr (val b0) = false ∧ tr (val (rest.foldl mergeStep b0)) = true ∧
      ∃ d ∈ rest, val d = val (rest.foldl mergeStep b0) := by
  induction rest generalizing b0 with
  | nil => exact absurd rfl h
  | cons d rest ih =>
    rw [List.foldl_cons] at h ⊢
    by_cases hd : val (mergeStep b0 d) = val b0
    · have h' : val (List.foldl mergeStep (mergeStep b0 d) rest) ≠ val (mergeStep b0 d) := by
        rw [hd]; exact h
      obtain ⟨hf, ht, d', hd', hv⟩ := ih _ h'
      rw [hd] at hf
      exact ⟨hf, ht, d', List.mem_cons_of_mem _ hd', hv⟩
    · obtain ⟨hf, heq, htd⟩ := hchange b0 d hd
      have htv : tr (val (mergeStep b0 d)) = true := by rw [heq]; exact htd
      have hkeep' : val (List.foldl mergeStep (mergeStep b0 d) rest) = val (mergeStep b0 d) :=
        foldl_mergeStep_keep val tr hkeep rest _ htv
      refine ⟨hf, ?_, d, List.mem_cons_self d rest, ?_⟩
      · rw [hkeep']; exact htv
      · rw [hkeep', heq]

theorem foldl_mergeStep_fill (P : Conference → Bool)
    (hkeep : ∀ b d, tr (val b) = true → val (mergeStep b d) = val b)
    (hP : ∀ b d, P b = true → P (mergeStep b d) = true)
    (hsure : ∀ b d, P b = true → tr (val b) = false → tr (val d) = true →
      tr (val (mergeStep b d)) = true)
    (rest : List Conference) (b0 : Conference) (hPb : P b0 = true)
    (h : tr (val b0) = true ∨ ∃ d ∈ rest, tr (val d) = true) :
    tr (val (rest.foldl mergeStep b0)) = true := by
  induction rest generalizing b0 with
  | nil =>
    rcases h with h | ⟨d, hd, _⟩
    · exact h
    · cases hd
  | cons d rest ih =>
    rw [List.foldl_cons]
    by_cases hb : tr (val b0) = true
    · have h1 : val (mergeStep b0 d) = val b0 := hkeep b0 d hb
      exact ih _ (hP _ _ hPb) (Or.inl (by rw [h1]; exact hb))
    · have hb' : tr (val b0) = false := by
        cases hv : tr (val b0)
        · rfl
        · exact absurd hv hb
      rcases h with h | ⟨d', hd', htd'⟩
      · exact absurd h hb
      rcases List.mem_cons.mp hd' with rfl | hmem
      · exact ih _ (hP _ _ hPb) (Or.inl (hsure b0 d' hPb hb' htd'))
      · by_cases hs : tr (val (mergeStep b0 d)) = true
        · exact ih _ (hP _ _ hPb) (Or.inl hs)
        · exact ih _ (hP _ _ hPb) (Or.inr ⟨d', hmem, htd'⟩)

end FoldFill

/-- Destructing a non-singleton merge: the sorted group is nonempty, and
the result is the fold over its tail with `sources` set. -/
theorem merge_eq_of_two_le (group : List Conference) (h2 : 2 ≤ group.length)
    (m : Conference) (post : List Conference)
    (hm : _merge_conferences group = some (m, post)) :
    ∃ b0 rest, sortByPriorityDesc group = b0 :: rest ∧
      m = { rest.foldl mergeStep b0 with sources := some (collectSources (b0 :: rest)) } ∧
      post = (if b0.location.isSome then
          { b0 with location := (rest.foldl mergeStep b0).location } else b0) :: rest := by
  match group, h2 with
  | g1 :: g2 :: gt, _ =>
    have hlen : (sortByPriorityDesc (g1 :: g2 :: gt)).length = (g1 :: g2 :: gt).length :=
      (List.perm_insertionSort _ _).length_eq
    cases hs : sortByPriorityDesc (g1 :: g2 :: gt) with
    | nil => rw [hs] at hlen; cases hlen
    | cons b0 rest =>
      refine ⟨b0, rest, rfl, ?_⟩
      unfold _merge_conferences at hm
      rw [hs] at hm
      simp only [Option.some.injEq, Prod.mk.injEq] at hm
      exact ⟨hm.1.symm, hm.2.symm⟩

/-- The sorted group is a permutation of the group and is sorted descending
by source priority. -/
theorem sortByPriorityDesc_sorted_perm (group : List Conference) :
    List.Sorted (fun a b => sourcePriority b ≤ sourcePriority a) (sortByPriorityDesc group) ∧
      (sortByPriorityDesc group).Perm group := by
  haveI : IsTotal Conference (fun a b => sourcePriority b ≤ sourcePriority a) :=
    ⟨fun a b => le_total _ _⟩
  haveI : IsTrans Conference (fun a b => sourcePriority b ≤ sourcePriority a) :=
    ⟨fun _ _ _ hab hbc => le_trans hbc hab⟩
  exact ⟨List.sorted_insertionSort _ _, List.perm_insertionSort _ _⟩

section LocStep

variable {β : Type} (v : Conference → β) (tr2 : β → Bool)

theorem step_keep_loc
    (hv : ∀ b d, v (mergeStep b d) =
      if b.location.isSome then fillIf tr2 (v b) (v d) else v b) :
    ∀ b d, tr2 (v b) = true → v (mergeStep b d) = v b := by
  intro b d h
  rw [hv]
  split
  · exact fillIf_of_truthy _ _ _ h
  · rfl

theorem step_change_loc
    (hv : ∀ b d, v (mergeStep b d) =
      if b.location.isSome then fillIf tr2 (v b) (v d) else v b) :
    ∀ b d, v (mergeStep b d) ≠ v b →
      tr2 (v b) = false ∧ v (mergeStep b d) = v d ∧ tr2 (v d) = true := by
  intro b d h
  by_cases hb : b.location.isSome = true
  · rw [hv, if_pos hb] at h ⊢
    exact fillIf_change _ _ _ h
  · rw [hv, if_neg hb] at h
    exact absurd rfl h

theorem step_sure_loc
    (hv : ∀ b d, v (mergeStep b d) =
      if b.location.isSome then fillIf tr2 (v b) (v d) else v b) :
    ∀ b d, b.location.isSome = true → tr2 (v b) = false →
      tr2 (v d) = true → tr2 (v (mergeStep b d)) = true := by
  intro b d hP hb hd
  rw [hv, if_pos hP, fillIf_fills _ _ _ hb hd]
  exact hd

end LocStep

/-! ### Claim theorems for the merge engine -/

/-- C6: merging a single-element group is the identity: the record is
returned as is and nothing is mutated (in `_merge_conferences`, the
`len(duplicates) == 1` early return hands back the very same object). -/
theorem c6_singleton_merge_identity (x : Conference) :
    _merge_conferences [x] = some (x, [x]) := rfl

/-- C1: for a duplicate group of two or more records, the merge sorts the
group descending by source priority (stably, so the sorted group is a
permutation of the input), takes the highest-priority record `b0` as the
base, and fills `startDate`, `endDate`, `cfp`, `twitter` and each location
sub-field only into falsy slots from a truthy donor: a populated value of
the base survives unchanged, and any value that differs from the base's
came from some lower-priority record of the group and filled a falsy slot
with a non-empty value. -/
theorem c1_merge_fill_missing_only (group : List Conference) (h2 : 2 ≤ group.length)
    (m : Conference) (post : List Conference)
    (hm : _merge_conferences group = some (m, post)) :
    ∃ b0 rest, sortByPriorityDesc group = b0 :: rest ∧
      List.Sorted (fun a b => sourcePriority b ≤ sourcePriority a) (b0 :: rest) ∧
      (b0 :: rest).Perm group ∧
      (strTruthy b0.startDate = true → m.startDate = b0.startDate) ∧
      (strTruthy b0.endDate = true → m.endDate = b0.endDate) ∧
      (cfpTruthy b0.cfp = true → m.cfp = b0.cfp) ∧
      (strTruthy b0.twitter = true → m.twitter = b0.twitter) ∧
      (strTruthy (locCity b0) = true → locCity m = locCity b0) ∧
      (strTruthy (locCountry b0) = true → locCountry m = locCountry b0) ∧
      (numTruthy (locLat b0) = true → locLat m = locLat b0) ∧
      (numTruthy (locLng b0) = true → locLng m = locLng b0) ∧
      (m.startDate ≠ b0.startDate → strTruthy b0.startDate = false ∧
        strTruthy m.startDate = true ∧ ∃ d ∈ rest, d.startDate = m.startDate) ∧
      (m.endDate ≠ b0.endDate → strTruthy b0.endDate = false ∧
        strTruthy m.endDate = true ∧ ∃ d ∈ rest, d.endDate = m.endDate) ∧
      (m.cfp ≠ b0.cfp → cfpTruthy b0.cfp = false ∧
        cfpTruthy m.cfp = true ∧ ∃ d ∈ rest, d.cfp = m.cfp) ∧
      (m.twitter ≠ b0.twitter → strTruthy b0.twitter = false ∧
        strTruthy m.twitter = true ∧ ∃ d ∈ rest, d.twitter = m.twitter) ∧
      (locCity m ≠ locCity b0 → strTruthy (locCity b0) = false ∧
        strTruthy (locCity m) = true ∧ ∃ d ∈ rest, locCity d = locCity m) ∧
      (locCountry m ≠ locCountry b0 → strTruthy (locCountry b0) = false ∧
        strTruthy (locCountry m) = true ∧ ∃ d ∈ rest, locCountry d = locCountry m) ∧
      (locLat m ≠ locLat b0 → numTruthy (locLat b0) = false ∧
        numTruthy (locLat m) = true ∧ ∃ d ∈ rest, locLat d = locLat m) ∧
      (locLng m ≠ locLng b0 → numTruthy (locLng b0) = false ∧
        numTruthy (locLng m) = true ∧ ∃ d ∈ rest, locLng d = locLng m) := by
  obtain ⟨b0, rest, hs, hmeq, -⟩ := merge_eq_of_two_le group h2 m post hm
  have hsp := sortByPriorityDesc_sorted_perm group
  rw [hs] at hsp
  subst hmeq
  refine ⟨b0, rest, hs, hsp.1, hsp.2, ?_, ?_, ?_, ?_, ?_, ?_, ?_, ?_,
    ?_, ?_, ?_, ?_, ?_, ?_, ?_, ?_⟩
  · exact foldl_mergeStep_keep (fun c => c.startDate) strTruthy
      (fun b d h => fillIf_of_truthy _ _ _ h) rest b0
  · exact foldl_mergeStep_keep (fun c => c.endDate) strTruthy
      (fun b d h => fillIf_of_truthy _ _ _ h) rest b0
  · exact foldl_mergeStep_keep (fun c => c.cfp) cfpTruthy
      (fun b d h => fillIf_of_truthy _ _ _ h) rest b0
  · exact foldl_mergeStep_keep (fun c => c.twitter) strTruthy
      (fun b d h => fillIf_of_truthy _ _ _ h) rest b0
  · exact foldl_mergeStep_keep locCity strTruthy
      (step_keep_loc locCity strTruthy locCity_mergeStep) rest b0
  · exact foldl_mergeStep_keep locCountry strTruthy
      (step_keep_loc locCountry strTruthy locCountry_mergeStep) rest b0
  · exact foldl_mergeStep_keep locLat numTruthy
      (step_keep_loc locLat numTruthy locLat_mergeStep) rest b0
  · exact foldl_mergeStep_keep locLng numTruthy
      (step_keep_loc locLng numTruthy locLng_mergeStep) rest b0
  · exact foldl_mergeStep_change (fun c => c.startDate) strTruthy
      (fun b d h => fillIf_of_truthy _ _ _ h) (fun b d h => fillIf_change _ _ _ h) rest b0
  · exact foldl_mergeStep_change (fun c => c.endDate) strTruthy
      (fun b d h => fillIf_of_truthy _ _ _ h) (fun b d h => fillIf_change _ _ _ h) rest b0
  · exact foldl_mergeStep_change (fun c => c.cfp) cfpTruthy
      (fun b d h => fillIf_of_truthy _ _ _ h) (fun b d h => fillIf_change _ _ _ h) rest b0
  · exact foldl_mergeStep_change (fun c => c.twitter) strTruthy
      (fun b d h => fillIf_of_truthy _ _ _ h) (fun b d h => fillIf_change _ _ _ h) rest b0
  · exact foldl_mergeStep_change locCity strTruthy
      (step_keep_loc locCity strTruthy locCity_mergeStep)
      (step_change_loc locCity strTruthy locCity_mergeStep) rest b0
  · exact foldl_mergeStep_change locCountry strTruthy
      (step_keep_loc locCountry strTruthy locCountry_mergeStep)
      (step_change_loc locCountry strTruthy locCountry_mergeStep) rest b0
  · exact foldl_mergeStep_change locLat numTruthy
      (step_keep_loc locLat numTruthy locLat_mergeStep)
      (step_change_loc locLat numTruthy locLat_mergeStep) rest b0
  · exact foldl_mergeStep_change locLng numTruthy
      (step_keep_loc locLng numTruthy locLng_mergeStep)
      (step_change_loc locLng numTruthy locLng_mergeStep) rest b0

/-- A high-priority record used in concrete merge checks. -/
def c1wA : Conference :=
  { name := some "SnowCamp 2026", startDate := some "2026-01-14",
    source := some "developers.events", cfp := some [("url", "u")] }

/-- A lower-priority duplicate used in concrete merge checks. -/
def c1wB : Conference :=
  { name := some "Snowcamp 2026", startDate := some "2026-01-14",
    source := some "tech-conferences", twitter := some "@snowcamp" }

/-- Witness for C1 at a concrete two-record group: the populated
`startDate` of the higher-priority record survives the merge. -/
theorem c1_merge_fill_missing_only_witness :
    ∃ m post, _merge_conferences [c1wA, c1wB] = some (m, post) ∧
      m.startDate = some "2026-01-14" := by
  cases hM : _merge_conferences [c1wA, c1wB] with
  | none => exact absurd hM (by decide)
  | some mp =>
    obtain ⟨m, post⟩ := mp
    refine ⟨m, post, rfl, ?_⟩
    obtain ⟨b0, rest, hs, -, -, hkeep, -⟩ :=
      c1_merge_fill_missing_only [c1wA, c1wB] (by decide) m post hM
    have hsort : sortByPriorityDesc [c1wA, c1wB] = [c1wA, c1wB] := by decide
    rw [hsort] at hs
    have hb0 : b0 = c1wA := by
      injection hs with h1 h2
      exact h1.symm
    rw [hb0] at hkeep
    rw [hkeep (by decide)]
    rfl

/-- Foldl of `mergeStep` never creates a location dict that was absent. -/
theorem foldl_mergeStep_location_none (rest : List Conference) (b0 : Conference)
    (h : b0.location = none) : (rest.foldl mergeStep b0).location = none := by
  induction rest generalizing b0 with
  | nil => exact h
  | cons d rest ih =>
    rw [List.foldl_cons]
    exact ih _ (by simp [mergeStep, mergeLoc, h])

/-- C3, corrected to groups of two or more records: the merged record's
`sources` is exactly the set of distinct non-empty `source` values among
the group's members. -/
theorem c3_sources_exact_set (group : List Conference) (h2 : 2 ≤ group.length)
    (m : Conference) (post : List Conference)
    (hm : _merge_conferences group = some (m, post)) :
    ∃ l, m.sources = some l ∧ l.Nodup ∧
      ∀ s : String, s ∈ l ↔ (s ≠ "" ∧ ∃ d ∈ group, d.source = some s) := by
  obtain ⟨b0, rest, hs, hmeq, -⟩ := merge_eq_of_two_le group h2 m post hm
  have hperm : (b0 :: rest).Perm group := by
    have := (sortByPriorityDesc_sorted_perm group).2
    rwa [hs] at this
  subst hmeq
  refine ⟨collectSources (b0 :: rest), rfl, List.nodup_dedup _, fun s => ?_⟩
  unfold collectSources
  rw [List.mem_dedup, List.mem_filter, List.mem_filterMap]
  constructor
  · rintro ⟨⟨d, hd, hds⟩, hne⟩
    exact ⟨by simpa using hne, d, hperm.mem_iff.mp hd, hds⟩
  · rintro ⟨hne, d, hd, hds⟩
    exact ⟨⟨d, hperm.mem_iff.mpr hd, hds⟩, by simpa using hne⟩

/-- Witness for C3 at a concrete two-record group. -/
theorem c3_sources_exact_set_witness :
    ∃ m post, _merge_conferences [c1wB, c1wA] = some (m, post) ∧
      ∃ l, m.sources = some l ∧ "developers.events" ∈ l ∧ "tech-conferences" ∈ l := by
  cases hM : _merge_conferences [c1wB, c1wA] with
  | none => exact absurd hM (by decide)
  | some mp =>
    obtain ⟨m, post⟩ := mp
    refine ⟨m, post, rfl, ?_⟩
    obtain ⟨l, hl, -, hiff⟩ := c3_sources_exact_set [c1wB, c1wA] (by decide) m post hM
    refine ⟨l, hl, ?_, ?_⟩
    · exact (hiff _).mpr ⟨by decide, c1wA, by decide, rfl⟩
    · exact (hiff _).mpr ⟨by decide, c1wB, by decide, rfl⟩

/-- Counterexample to C3 as stated: a singleton group is returned
unchanged, so its `sources` stays absent even though the record carries a
non-empty `source`. -/
theorem c3_sources_counterexample :
    (_merge_conferences [{ name := some "solo conf", source := some "dblp" }]).map
        (fun p => p.1.sources) = some none ∧
      ({ name := some "solo conf", source := some "dblp" : Conference }).source =
        some "dblp" :=
  ⟨rfl, rfl⟩

/-- C4, corrected: in a group of two or more records, a non-empty
`startDate`, `endDate`, `cfp` or `twitter` of any member is populated in
the merged record, and the same holds for the location sub-fields provided
the highest-priority record itself carries a `location` dict (when it does
not, location data is dropped; fields outside the merged set, such as
`url`, are never merged). -/
theorem c4_merge_populates_fields (group : List Conference) (h2 : 2 ≤ group.length)
    (m : Conference) (post : List Conference)
    (hm : _merge_conferences group = some (m, post)) :
    ((∃ d ∈ group, strTruthy d.startDate = true) → strTruthy m.startDate = true) ∧
    ((∃ d ∈ group, strTruthy d.endDate = true) → strTruthy m.endDate = true) ∧
    ((∃ d ∈ group, cfpTruthy d.cfp = true) → cfpTruthy m.cfp = true) ∧
    ((∃ d ∈ group, strTruthy d.twitter = true) → strTruthy m.twitter = true) ∧
    (∀ b0 rest, sortByPriorityDesc group = b0 :: rest → b0.location.isSome = true →
      ((∃ d ∈ group, strTruthy (locCity d) = true) → strTruthy (locCity m) = true) ∧
      ((∃ d ∈ group, strTruthy (locCountry d) = true) → strTruthy (locCountry m) = true) ∧
      ((∃ d ∈ group, numTruthy (locLat d) = true) → numTruthy (locLat m) = true) ∧
      ((∃ d ∈ group, numTruthy (locLng d) = true) → numTruthy (locLng m) = true)) := by
  obtain ⟨b0, rest, hs, hmeq, -⟩ := merge_eq_of_two_le group h2 m post hm
  have hperm : (b0 :: rest).Perm group := by
    have := (sortByPriorityDesc_sorted_perm group).2
    rwa [hs] at this
  subst hmeq
  have toOr : ∀ {tr : Conference → Bool}, (∃ d ∈ group, tr d = true) →
      tr b0 = true ∨ ∃ d ∈ rest, tr d = true := by
    rintro tr ⟨d, hd, htd⟩
    rcases List.mem_cons.mp (hperm.mem_iff.mpr hd) with rfl | hmem
    · exact Or.inl htd
    · exact Or.inr ⟨d, hmem, htd⟩
  refine ⟨?_, ?_, ?_, ?_, ?_⟩
  · intro hex
    exact foldl_mergeStep_fill (fun c => c.startDate) strTruthy (fun _ => true)
      (fun b d h => fillIf_of_truthy _ _ _ h) (fun _ _ _ => rfl)
      (fun b d _ hb hd => by
        show strTruthy (fillIf strTruthy b.startDate d.startDate) = true
        rw [fillIf_fills _ _ _ hb hd]
        exact hd)
      rest b0 rfl (toOr hex)
  · intro hex
    exact foldl_mergeStep_fill (fun c => c.endDate) strTruthy (fun _ => true)
      (fun b d h => fillIf_of_truthy _ _ _ h) (fun _ _ _ => rfl)
      (fun b d _ hb hd => by
        show strTruthy (fillIf strTruthy b.endDate d.endDate) = true
        rw [fillIf_fills _ _ _ hb hd]
        exact hd)
      rest b0 rfl (toOr hex)
  · intro hex
    exact foldl_mergeStep_fill (fun c => c.cfp) cfpTruthy (fun _ => true)
      (fun b d h => fillIf_of_truthy _ _ _ h) (fun _ _ _ => rfl)
      (fun b d _ hb hd => by
        show cfpTruthy (fillIf cfpTruthy b.cfp d.cfp) = true
        rw [fillIf_fills _ _ _ hb hd]
        exact hd)
      rest b0 rfl (toOr hex)
  · intro hex
    exact foldl_mergeStep_fill (fun c => c.twitter) strTruthy (fun _ => true)
      (fun b d h => fillIf_of_truthy _ _ _ h) (fun _ _ _ => rfl)
      (fun b d _ hb hd => by
        show strTruthy (fillIf strTruthy b.twitter d.twitter) = true
        rw [fillIf_fills _ _ _ hb hd]
        exact hd)
      rest b0 rfl (toOr hex)
  · intro b0' rest' hs' hloc
    rw [hs] at hs'
    have hb0 : b0' = b0 := by
      injection hs' with h1 h2
      exact h1.symm
    subst hb0
    refine ⟨?_, ?_, ?_, ?_⟩
    · intro hex
      exact foldl_mergeStep_fill locCity strTruthy (fun c => c.location.isSome)
        (step_keep_loc locCity strTruthy locCity_mergeStep) mergeStep_location_isSome
        (step_sure_loc locCity strTruthy locCity_mergeStep)
        rest b0' hloc (toOr hex)
    · intro hex
      exact foldl_mergeStep_fill locCountry strTruthy (fun c => c.location.isSome)
        (step_keep_loc locCountry strTruthy locCountry_mergeStep) mergeStep_location_isSome
        (step_sure_loc locCountry strTruthy locCountry_mergeStep)
        rest b0' hloc (toOr hex)
    · intro hex
      exact foldl_mergeStep_fill locLat numTruthy (fun c => c.location.isSome)
        (step_keep_loc locLat numTruthy locLat_mergeStep) mergeStep_location_isSome
        (step_sure_loc locLat numTruthy locLat_mergeStep)
        rest b0' hloc (toOr hex)
    · intro hex
      exact foldl_mergeStep_fill locLng numTruthy (fun c => c.location.isSome)
        (step_keep_loc locLng numTruthy locLng_mergeStep) mergeStep_location_isSome
        (step_sure_loc locLng numTruthy locLng_mergeStep)
        rest b0' hloc (toOr hex)

/-- Lower-priority record with url and location, for the C4 counterexample. -/
def c4B : Conference :=
  { name := some "conf x", source := some "papercall", url := some "https-example",
    location := some { city := some "Paris" } }

/-- Counterexample to C4 as stated: the higher-priority record has no
`location` key and no `url`; the donor's `url` is never merged at all and
its location data is dropped because `base.get("location", {})` is never
stored back, so both fields are absent from the merged record. -/
theorem c4_merge_populates_fields_counterexample :
    (_merge_conferences [{ name := some "conf x", source := some "dblp" }, c4B]).map
        (fun p => (p.1.url, p.1.location)) = some (none, none) ∧
      strTruthy c4B.url = true ∧ strTruthy (locCity c4B) = true :=
  ⟨rfl, rfl, rfl⟩

/-- Witness for C4 at a concrete group: the donor's `twitter` is populated
on the merged record. -/
theorem c4_merge_populates_fields_witness :
    ∃ m post, _merge_conferences [c1wA, c1wB] = some (m, post) ∧
      strTruthy m.twitter = true := by
  cases hM : _merge_conferences [c1wA, c1wB] with
  | none => exact absurd hM (by decide)
  | some mp =>
    obtain ⟨m, post⟩ := mp
    refine ⟨m, post, rfl, ?_⟩
    obtain ⟨-, -, -, htw, -⟩ :=
      c4_merge_populates_fields [c1wA, c1wB] (by decide) m post hM
    exact htw ⟨c1wB, by decide, by decide⟩

/-- C5, corrected: the base is a *shallow* copy, so `_merge_conferences`
never mutates any record other than the (post-sort) highest-priority one,
and on that one it never mutates top-level fields; but when the
highest-priority record carries a `location` dict, that nested dict is
aliased by the base and is updated in place by the fills (it ends up equal
to the merged record's location).  When it has no `location` key, nothing
at all is mutated. -/
theorem c5_merge_mutation_frame (group : List Conference) (h2 : 2 ≤ group.length)
    (m : Conference) (post : List Conference)
    (hm : _merge_conferences group = some (m, post)) :
    ∃ b0 rest, sortByPriorityDesc group = b0 :: rest ∧ b0 ∈ group ∧
      (∀ d ∈ rest, d ∈ group) ∧
      ∃ b0', post = b0' :: rest ∧
        b0'.name = b0.name ∧ b0'.url = b0.url ∧ b0'.startDate = b0.startDate ∧
        b0'.endDate = b0.endDate ∧ b0'.cfp = b0.cfp ∧ b0'.twitter = b0.twitter ∧
        b0'.source = b0.source ∧ b0'.sources = b0.sources ∧
        b0'.location = m.location ∧
        (b0.location = none → b0' = b0) := by
  obtain ⟨b0, rest, hs, hmeq, hpost⟩ := merge_eq_of_two_le group h2 m post hm
  have hperm : (b0 :: rest).Perm group := by
    have := (sortByPriorityDesc_sorted_perm group).2
    rwa [hs] at this
  subst hmeq
  refine ⟨b0, rest, hs, hperm.mem_iff.mp (List.mem_cons_self _ _),
    fun d hd => hperm.mem_iff.mp (List.mem_cons_of_mem _ hd), ?_⟩
  by_cases hb : b0.location.isSome = true
  · rw [if_pos hb] at hpost
    refine ⟨_, hpost, rfl, rfl, rfl, rfl, rfl, rfl, rfl, rfl, rfl, ?_⟩
    intro hnone
    rw [hnone] at hb
    cases hb
  · rw [if_neg hb] at hpost
    have hnone : b0.location = none := by
      cases hl : b0.location
      · rfl
      · rw [hl] at hb; exact absurd rfl hb
    refine ⟨b0, hpost, rfl, rfl, rfl, rfl, rfl, rfl, rfl, rfl, ?_, fun _ => rfl⟩
    rw [hnone]
    exact (foldl_mergeStep_location_none rest b0 hnone).symm

/-- Higher-priority record carrying an empty location dict, for the C5
counterexample and witness. -/
def c5A : Conference :=
  { name := some "x conf", source := some "dblp", location := some {} }

/-- Counterexample to C5 as stated: after the merge, the nested location
dict of the higher-priority input record has been mutated in place (its
`city` was filled from the lower-priority donor), so the input group is
not unchanged. -/
theorem c5_merge_mutation_counterexample :
    ∃ m post,
      _merge_conferences
          [c5A, { name := some "x conf", source := some "papercall",
                  location := some { city := some "Paris" } }] = some (m, post) ∧
        post.head? ≠ some c5A ∧
        post.head? = some { c5A with location := some { city := some "Paris" } } :=
  ⟨_, _, rfl, by decide, by decide⟩

/-- Witness for C5 at a concrete group: the lower-priority record is
untouched, and the head's top-level fields are unchanged. -/
theorem c5_merge_mutation_frame_witness :
    ∃ m post,
      _merge_conferences
          [c5A, { name := some "x conf", source := some "papercall",
                  location := some { city := some "Paris" } }] = some (m, post) ∧
        ∃ b0', post.head? = some b0' ∧ b0'.source = some "dblp" := by
  cases hM : _merge_conferences
      [c5A, { name := some "x conf", source := some "papercall",
              location := some { city := some "Paris" } }] with
  | none => exact absurd hM (by decide)
  | some mp =>
    obtain ⟨m, post⟩ := mp
    refine ⟨m, post, rfl, ?_⟩
    obtain ⟨b0, rest, hs, -, -, b0', hpost, -, -, -, -, -, -, hsrc, -⟩ :=
      c5_merge_mutation_frame _ (by decide) m post hM
    have hsort : sortByPriorityDesc
        [c5A, { name := some "x conf", source := some "papercall",
                location := some { city := some "Paris" } }] =
        [c5A, { name := some "x conf", source := some "papercall",
                location := some { city := some "Paris" } }] := by decide
    rw [hsort] at hs
    have hb0 : b0 = c5A := by
      injection hs with h1 h2
      exact h1.symm
    refine ⟨b0', by rw [hpost]; rfl, ?_⟩
    rw [hsrc, hb0]
    rfl

/-! ### Claim C2: `_is_duplicate` -/

/-- The similarity threshold of `_is_duplicate` is the literal `0.75`
(written `mkRat 3 4` in the model so that the kernel can evaluate it). -/
theorem threshold_eq : (0.75 : ℚ) = mkRat 3 4 := by
  rw [Rat.mkRat_eq_div]
  norm_num

theorem parseDate_ne_empty (s : String) (p : Nat × Nat × Nat) (h : parseDate s = some p) :
    s ≠ "" := by
  intro he
  subst he
  rw [show parseDate "" = none from rfl] at h
  cases h

theorem date_diff_of_parse (s1 s2 : String) (p1 p2 : Nat × Nat × Nat)
    (h1 : parseDate s1 = some p1) (h2 : parseDate s2 = some p2) :
    _date_diff s1 s2 = (((dayNumber p1 : Int) - dayNumber p2).natAbs : Int) := by
  unfold _date_diff
  rw [h1, h2]

/-- C2: `_is_duplicate` returns `false` whenever the similarity of the
normalised names is below `0.75`; when both records carry a `startDate`
that parses as `YYYY-MM-DD` it returns `false` when the day distance
exceeds `7` and `true` when the similarity is at least `0.75` and the
distance is at most `7`; and when either `startDate` is falsy the date
check is skipped, so the result is `true` exactly when the similarity is
at least `0.75`. -/
theorem c2_is_duplicate_behaviour (a b : Conference) :
    (similarityScore (_normalize_name (a.name.getD "")).data
        (_normalize_name (b.name.getD "")).data < 0.75 →
      _is_duplicate a b = false) ∧
    (∀ s1 s2 p1 p2, a.startDate = some s1 → b.startDate = some s2 →
      parseDate s1 = some p1 → parseDate s2 = some p2 →
      ((((dayNumber p1 : Int) - dayNumber p2).natAbs > 7 → _is_duplicate a b = false) ∧
        (0.75 ≤ similarityScore (_normalize_name (a.name.getD "")).data
            (_normalize_name (b.name.getD "")).data →
          ((dayNumber p1 : Int) - dayNumber p2).natAbs ≤ 7 →
          _is_duplicate a b = true))) ∧
    ((strTruthy a.startDate = false ∨ strTruthy b.startDate = false) →
      (_is_duplicate a b = true ↔
        0.75 ≤ similarityScore (_normalize_name (a.name.getD "")).data
          (_normalize_name (b.name.getD "")).data)) := by
  simp only [threshold_eq]
  have hdef : _is_duplicate a b =
      (if similarityScore (_normalize_name (a.name.getD "")).data
          (_normalize_name (b.name.getD "")).data < mkRat 3 4 then false
       else if strTruthy a.startDate && strTruthy b.startDate then
         if (_date_diff (a.startDate.getD "") (b.startDate.getD "")).natAbs > 7 then false
         else true
       else true) := rfl
  refine ⟨?_, ?_, ?_⟩
  · intro h
    rw [hdef, if_pos h]
  · intro s1 s2 p1 p2 ha hb hp1 hp2
    have ht1 : strTruthy a.startDate = true := by
      rw [ha]
      exact bne_iff_ne.mpr (parseDate_ne_empty _ _ hp1)
    have ht2 : strTruthy b.startDate = true := by
      rw [hb]
      exact bne_iff_ne.mpr (parseDate_ne_empty _ _ hp2)
    have hdd : _date_diff (a.startDate.getD "") (b.startDate.getD "") =
        (((dayNumber p1 : Int) - dayNumber p2).natAbs : Int) := by
      rw [ha, hb]
      exact date_diff_of_parse s1 s2 p1 p2 hp1 hp2
    constructor
    · intro hgt
      by_cases hsim : similarityScore (_normalize_name (a.name.getD "")).data
          (_normalize_name (b.name.getD "")).data < mkRat 3 4
      · rw [hdef, if_pos hsim]
      · rw [hdef, if_neg hsim, if_pos (by rw [ht1, ht2]; rfl), if_pos ?_]
        rw [hdd]
        simpa [Int.natAbs_abs] using hgt
    · intro hge hle
      rw [hdef, if_neg (not_lt.mpr hge), if_pos (by rw [ht1, ht2]; rfl), if_neg ?_]
      rw [hdd]
      simpa [Int.natAbs_abs] using hle
  · intro hor
    have hcond : (strTruthy a.startDate && strTruthy b.startDate) = false := by
      rcases hor with h | h <;> simp [h]
    by_cases hsim : similarityScore (_normalize_name (a.name.getD "")).data
        (_normalize_name (b.name.getD "")).data < mkRat 3 4
    · rw [hdef, if_pos hsim]
      constructor
      · intro h
        cases h
      · intro h
        exact absurd hsim (not_lt.mpr h)
    · rw [hdef, if_neg hsim, if_neg (by rw [hcond]; exact Bool.false_ne_true)]
      exact ⟨fun _ => not_lt.mp hsim, fun _ => rfl⟩

set_option maxRecDepth 8000 in
/-- Witness for C2 at concrete records: identical normalised names
(similarity `1`), dates five days apart, so they are duplicates. -/
theorem c2_is_duplicate_behaviour_witness :
    _is_duplicate { name := some "PyCon 2026", startDate := some "2026-05-01" }
      { name := some "PyCon 2026!", startDate := some "2026-05-06" } = true := by
  have h := (c2_is_duplicate_behaviour
      { name := some "PyCon 2026", startDate := some "2026-05-01" }
      { name := some "PyCon 2026!", startDate := some "2026-05-06" }).2.1
    "2026-05-01" "2026-05-06" (2026, 5, 1) (2026, 5, 6) rfl rfl (by rfl) (by rfl)
  exact h.2 (by rw [threshold_eq]; decide) (by decide)

/-! ### Claim C7: `_normalize_name` -/

/-- Characters a normalised name may contain. -/
def normChar (c : Char) : Bool := isLowerAlnum c || c == ' '

/-- No two adjacent spaces. -/
def noTwoSpaces : List Char → Bool
  | [] => true
  | c :: rest => (!(c == ' ' && rest.head? == some ' ')) && noTwoSpaces rest

theorem ws_not_alnum (c : Char) (h : isPyWs c = true) : isLowerAlnum c = false := by
  simp only [isPyWs, Bool.or_eq_true, beq_iff_eq] at h
  rcases h with ((((h | h) | h) | h) | h) | h <;> subst h <;> decide

theorem alnum_not_ws (c : Char) (h : isLowerAlnum c = true) : isPyWs c = false := by
  cases hw : isPyWs c
  · rfl
  · rw [ws_not_alnum c hw] at h
    cases h

theorem normChar_not_space_alnum (c : Char) (h : normChar c = true) (hs : c ≠ ' ') :
    isLowerAlnum c = true := by
  simp only [normChar, Bool.or_eq_true, beq_iff_eq] at h
  rcases h with h | h
  · exact h
  · exact absurd h hs

theorem normChar_keep (c : Char) (h : normChar c = true) : keepChar c = true := by
  simp only [normChar, Bool.or_eq_true, beq_iff_eq] at h
  rcases h with h | h
  · simp [keepChar, h]
  · subst h
    decide

theorem alnum_le_cases (c : Char) (h : isLowerAlnum c = true) :
    ('a' ≤ c ∧ c ≤ 'z') ∨ ('0' ≤ c ∧ c ≤ '9') := by
  simpa [isLowerAlnum, Bool.or_eq_true, Bool.and_eq_true, decide_eq_true_eq] using h

theorem pyLower_fix (c : Char) (h : normChar c = true) : pyLower c = c := by
  unfold pyLower
  rw [if_neg]
  simp only [Bool.and_eq_true, decide_eq_true_eq, not_and]
  intro h1 h2
  by_cases hs : c = ' '
  · subst hs
    exact absurd h1 (by decide)
  · rcases alnum_le_cases c (normChar_not_space_alnum c h hs) with ⟨ha, -⟩ | ⟨-, hb⟩
    · exact absurd (lt_of_lt_of_le (by decide : 'Z' < 'a') ha) (not_lt.mpr h2)
    · exact absurd (lt_of_le_of_lt hb (by decide : '9' < 'A')) (not_lt.mpr h1)

theorem collapseWs_chars (l : List Char) (b : Bool)
    (h : ∀ c ∈ l, keepChar c = true) :
    ∀ c ∈ collapseWs b l, normChar c = true := by
  induction l generalizing b with
  | nil => intro c hc; cases hc
  | cons c0 cs ih =>
    intro c hc
    by_cases hw : isPyWs c0 = true
    · rw [collapseWs, if_pos hw] at hc
      cases b with
      | true => exact ih true (fun x hx => h x (List.mem_cons_of_mem _ hx)) c hc
      | false =>
        rw [if_neg Bool.false_ne_true] at hc
        rcases List.mem_cons.mp hc with rfl | hc
        · decide
        · exact ih true (fun x hx => h x (List.mem_cons_of_mem _ hx)) c hc
    · rw [collapseWs, if_neg hw] at hc
      rcases List.mem_cons.mp hc with rfl | hc
      · have hk := h c (List.mem_cons_self _ _)
        simp only [keepChar, Bool.or_eq_true] at hk
        rcases hk with hk | hk
        · simp [normChar, hk]
        · exact absurd hk hw
      · exact ih false (fun x hx => h x (List.mem_cons_of_mem _ hx)) c hc

theorem collapseWs_true_head (l : List Char) (c : Char)
    (h : (collapseWs true l).head? = some c) : isPyWs c = false := by
  induction l with
  | nil => cases h
  | cons c0 cs ih =>
    by_cases hw : isPyWs c0 = true
    · rw [collapseWs, if_pos hw, if_pos rfl] at h
      exact ih h
    · rw [collapseWs, if_neg hw] at h
      simp only [List.head?_cons, Option.some.injEq] at h
      subst h
      simpa using hw

theorem collapseWs_noTwo (l : List Char) (b : Bool) :
    noTwoSpaces (collapseWs b l) = true := by
  induction l generalizing b with
  | nil => rfl
  | cons c0 cs ih =>
    by_cases hw : isPyWs c0 = true
    · cases b with
      | true =>
        rw [collapseWs, if_pos hw, if_pos rfl]
        exact ih true
      | false =>
        rw [collapseWs, if_pos hw, if_neg Bool.false_ne_true]
        rw [noTwoSpaces]
        have hh : ((collapseWs true cs).head? == some ' ') = false := by
          cases hhd : (collapseWs true cs).head? with
          | none => rfl
          | some c =>
            have hcw := collapseWs_true_head cs c hhd
            rw [beq_eq_false_iff_ne]
            intro he
            rw [Option.some.injEq] at he
            subst he
            exact absurd hcw (by decide)
        rw [hh]
        simp [ih true]
    · rw [collapseWs, if_neg hw, noTwoSpaces]
      have hc0 : (c0 == ' ') = false := by
        rw [beq_eq_false_iff_ne]
        intro he
        subst he
        exact hw (by decide)
      rw [hc0]
      simp [ih false]

theorem noTwoSpaces_right (l₁ l₂ : List Char) (h : noTwoSpaces (l₁ ++ l₂) = true) :
    noTwoSpaces l₂ = true := by
  induction l₁ with
  | nil => exact h
  | cons c l₁ ih =>
    rw [List.cons_append, noTwoSpaces, Bool.and_eq_true] at h
    exact ih h.2

theorem noTwoSpaces_left (l₁ l₂ : List Char) (h : noTwoSpaces (l₁ ++ l₂) = true) :
    noTwoSpaces l₁ = true := by
  induction l₁ with
  | nil => rfl
  | cons c l₁ ih =>
    rw [List.cons_append, noTwoSpaces, Bool.and_eq_true] at h
    cases l₁ with
    | nil => simp [noTwoSpaces]
    | cons a t =>
      rw [noTwoSpaces, Bool.and_eq_true]
      exact ⟨h.1, ih h.2⟩

/-- `dropTrailingWs l` is a prefix of `l`. -/
theorem dropTrailingWs_prefix (l : List Char) : ∃ l₂, l = dropTrailingWs l ++ l₂ := by
  induction l with
  | nil => exact ⟨[], rfl⟩
  | cons c cs ih =>
    obtain ⟨l₂, hl₂⟩ := ih
    cases hr : dropTrailingWs cs with
    | nil =>
      by_cases hw : isPyWs c = true
      · exact ⟨c :: cs, by simp [dropTrailingWs, hr, hw]⟩
      · refine ⟨cs, ?_⟩
        have : dropTrailingWs (c :: cs) = [c] := by
          rw [dropTrailingWs, hr]
          simp [hw]
        rw [this]
        rfl
    | cons a t =>
      refine ⟨l₂, ?_⟩
      have : dropTrailingWs (c :: cs) = c :: a :: t := by
        rw [dropTrailingWs, hr]
      rw [this]
      rw [hr] at hl₂
      simpa using hl₂

theorem dropTrailingWs_getLast (l : List Char) (c : Char)
    (h : (dropTrailingWs l).getLast? = some c) : isPyWs c = false := by
  induction l with
  | nil => cases h
  | cons c0 cs ih =>
    cases hr : dropTrailingWs cs with
    | nil =>
      rw [dropTrailingWs, hr] at h
      by_cases hw : isPyWs c0 = true
      · rw [if_pos hw] at h
        cases h
      · rw [if_neg hw] at h
        simp only [List.getLast?_singleton, Option.some.injEq] at h
        subst h
        cases hww : isPyWs c0
        · rfl
        · exact absurd hww hw
    | cons a t =>
      rw [dropTrailingWs, hr] at h
      rw [List.getLast?_cons_cons] at h
      rw [hr] at ih
      exact ih h

theorem dropWhile_head_not (l : List Char) (c : Char)
    (h : (l.dropWhile isPyWs).head? = some c) : isPyWs c = false := by
  induction l with
  | nil => cases h
  | cons c0 cs ih =>
    by_cases hw : isPyWs c0 = true
    · rw [List.dropWhile_cons_of_pos hw] at h
      exact ih h
    · rw [List.dropWhile_cons_of_neg hw] at h
      simp only [List.head?_cons, Option.some.injEq] at h
      subst h
      simpa using hw

theorem pyStrip_subset (l : List Char) (c : Char) (h : c ∈ pyStrip l) : c ∈ l := by
  unfold pyStrip at h
  obtain ⟨l₂, hl₂⟩ := dropTrailingWs_prefix (l.dropWhile isPyWs)
  have h1 : c ∈ l.dropWhile isPyWs := by
    rw [hl₂]
    exact List.mem_append_left _ h
  have := List.takeWhile_append_dropWhile (p := isPyWs) (l := l)
  rw [← this]
  exact List.mem_append_right _ h1

theorem pyStrip_noTwo (l : List Char) (h : noTwoSpaces l = true) :
    noTwoSpaces (pyStrip l) = true := by
  unfold pyStrip
  have h1 : noTwoSpaces (l.dropWhile isPyWs) = true := by
    have := List.takeWhile_append_dropWhile (p := isPyWs) (l := l)
    exact noTwoSpaces_right _ _ (by rw [this]; exact h)
  obtain ⟨l₂, hl₂⟩ := dropTrailingWs_prefix (l.dropWhile isPyWs)
  exact noTwoSpaces_left _ _ (by rw [← hl₂]; exact h1)

theorem pyStrip_head (l : List Char) (c : Char) (h : (pyStrip l).head? = some c) :
    isPyWs c = false := by
  unfold pyStrip at h
  obtain ⟨l₂, hl₂⟩ := dropTrailingWs_prefix (l.dropWhile isPyWs)
  cases hd : dropTrailingWs (l.dropWhile isPyWs) with
  | nil => rw [hd] at h; cases h
  | cons a t =>
    rw [hd] at h
    cases h
    rw [hd] at hl₂
    apply dropWhile_head_not l
    rw [hl₂]
    rfl

/-- The characterisation of a normalised string. -/
theorem normalize_normed (s : String) :
    (_normalize_name s).data.all normChar = true ∧
      noTwoSpaces (_normalize_name s).data = true ∧
      (_normalize_name s).data.head? ≠ some ' ' ∧
      (_normalize_name s).data.getLast? ≠ some ' ' := by
  by_cases hs : s = ""
  · subst hs
    exact ⟨rfl, rfl, by simp [_normalize_name], by simp [_normalize_name]⟩
  · have hdata : (_normalize_name s).data =
        pyStrip (collapseWs false ((s.data.map pyLower).filter keepChar)) := by
      rw [_normalize_name, if_neg hs]
    refine ⟨?_, ?_, ?_, ?_⟩
    · rw [hdata, List.all_eq_true]
      intro c hc
      exact collapseWs_chars _ false
        (fun x hx => List.of_mem_filter hx) c (pyStrip_subset _ c hc)
    · rw [hdata]
      exact pyStrip_noTwo _ (collapseWs_noTwo _ false)
    · rw [hdata]
      intro h
      have := pyStrip_head _ _ h
      cases this
    · rw [hdata]
      intro h
      have h2 : (pyStrip (collapseWs false ((s.data.map pyLower).filter keepChar))).getLast?
          = some ' ' := h
      unfold pyStrip at h2
      have := dropTrailingWs_getLast _ _ h2
      cases this

theorem map_pyLower_id (l : List Char) (h : ∀ c ∈ l, normChar c = true) :
    l.map pyLower = l := by
  induction l with
  | nil => rfl
  | cons c cs ih =>
    rw [List.map_cons, pyLower_fix c (h c (List.mem_cons_self _ _)),
      ih (fun x hx => h x (List.mem_cons_of_mem _ hx))]

theorem collapseWs_id (l : List Char) (hchars : ∀ c ∈ l, normChar c = true)
    (hnt : noTwoSpaces l = true) :
    collapseWs false l = l ∧ (l.head? ≠ some ' ' → collapseWs true l = l) := by
  induction l with
  | nil => exact ⟨rfl, fun _ => rfl⟩
  | cons c cs ih =>
    rw [noTwoSpaces, Bool.and_eq_true] at hnt
    obtain ⟨ih1, ih2⟩ := ih (fun x hx => hchars x (List.mem_cons_of_mem _ hx)) hnt.2
    by_cases hsp : c = ' '
    · subst hsp
      have hhd : cs.head? ≠ some ' ' := by
        intro hh
        rw [hh] at hnt
        simp at hnt
      have hcs : collapseWs true cs = cs := ih2 hhd
      constructor
      · rw [collapseWs, if_pos (by decide), if_neg Bool.false_ne_true, hcs]
      · intro hh
        exact absurd rfl hh
    · have halnum : isLowerAlnum c = true :=
        normChar_not_space_alnum c (hchars c (List.mem_cons_self _ _)) hsp
      have hws : isPyWs c = false := alnum_not_ws c halnum
      constructor
      · rw [collapseWs, if_neg (by simp [hws]), ih1]
      · intro _
        rw [collapseWs, if_neg (by simp [hws]), ih1]

theorem dropTrailingWs_id (l : List Char) (hchars : ∀ c ∈ l, normChar c = true)
    (hlast : l.getLast? ≠ some ' ') : dropTrailingWs l = l := by
  induction l with
  | nil => rfl
  | cons c cs ih =>
    cases cs with
    | nil =>
      have hc : c ≠ ' ' := by
        intro he
        subst he
        exact absurd rfl hlast
      have halnum := normChar_not_space_alnum c (hchars c (List.mem_cons_self _ _)) hc
      rw [dropTrailingWs]
      simp [alnum_not_ws c halnum, dropTrailingWs]
    | cons a t =>
      have hcs : dropTrailingWs (a :: t) = a :: t := by
        apply ih (fun x hx => hchars x (List.mem_cons_of_mem _ hx))
        rw [List.getLast?_cons_cons] at hlast
        exact hlast
      rw [dropTrailingWs, hcs]

theorem pyStrip_id (l : List Char) (hchars : ∀ c ∈ l, normChar c = true)
    (hhead : l.head? ≠ some ' ') (hlast : l.getLast? ≠ some ' ') : pyStrip l = l := by
  unfold pyStrip
  have hdw : l.dropWhile isPyWs = l := by
    cases l with
    | nil => rfl
    | cons c cs =>
      have hc : c ≠ ' ' := by
        intro he
        subst he
        exact absurd rfl hhead
      have halnum := normChar_not_space_alnum c (hchars c (List.mem_cons_self _ _)) hc
      rw [List.dropWhile_cons_of_neg (by simp [alnum_not_ws c halnum])]
  rw [hdw]
  exact dropTrailingWs_id l hchars hlast

/-- C7: `_normalize_name` maps the empty string to itself, is idempotent,
and its output consists only of characters of `[a-z0-9]` and single
separating spaces, with no leading or trailing whitespace.  (Totality is
the totality of the Lean function itself.) -/
theorem c7_normalize_idempotent_shape :
    _normalize_name "" = "" ∧
      ∀ x : String,
        _normalize_name (_normalize_name x) = _normalize_name x ∧
        (_normalize_name x).data.all normChar = true ∧
        noTwoSpaces (_normalize_name x).data = true ∧
        (_normalize_name x).data.head? ≠ some ' ' ∧
        (_normalize_name x).data.getLast? ≠ some ' ' := by
  refine ⟨rfl, fun x => ?_⟩
  obtain ⟨hall, hnt, hhd, hlast⟩ := normalize_normed x
  refine ⟨?_, hall, hnt, hhd, hlast⟩
  by_cases he : _normalize_name x = ""
  · rw [he]
    rfl
  · have hchars : ∀ c ∈ (_normalize_name x).data, normChar c = true :=
      List.all_eq_true.mp hall
    rw [_normalize_name, if_neg he]
    rw [map_pyLower_id _ hchars,
      List.filter_eq_self.mpr (fun c hc => normChar_keep c (hchars c hc)),
      (collapseWs_id _ hchars hnt).1,
      pyStrip_id _ hchars hhd hlast]

/-! ### Claim C8: `deduplicate` is total -/

theorem mapM_option_isSome {α β : Type} (f : α → Option β) :
    ∀ l : List α, (∀ a ∈ l, (f a).isSome = true) → (l.mapM f).isSome = true := by
  intro l
  induction l with
  | nil => intro _; rfl
  | cons a t ih =>
    intro h
    rcases Option.isSome_iff_exists.mp (h a (List.mem_cons_self _ _)) with ⟨b, hb⟩
    rcases Option.isSome_iff_exists.mp
      (ih fun x hx => h x (List.mem_cons_of_mem _ hx)) with ⟨bs, hbs⟩
    rw [List.mapM_cons, hb, hbs]
    rfl

theorem merge_isSome (l : List Conference) (h : l ≠ []) :
    (_merge_conferences l).isSome = true := by
  match l, h with
  | [c], _ => rfl
  | a :: b :: t, _ =>
    have hlen : (sortByPriorityDesc (a :: b :: t)).length = (a :: b :: t).length :=
      (sortByPriorityDesc_sorted_perm _).2.length_eq
    cases hs : sortByPriorityDesc (a :: b :: t) with
    | nil => rw [hs] at hlen; cases hlen
    | cons b0 rest =>
      unfold _merge_conferences
      rw [hs]
      rfl

theorem findClusters_ne_nil : ∀ l : List Conference, ∀ cl ∈ findClusters l, cl ≠ [] := by
  have H : ∀ n : Nat, ∀ l : List Conference, l.length ≤ n →
      ∀ cl ∈ findClusters l, cl ≠ [] := by
    intro n
    induction n with
    | zero =>
      intro l hl cl hcl
      rw [List.length_eq_zero.mp (Nat.le_zero.mp hl)] at hcl
      rw [findClusters] at hcl
      cases hcl
    | succ n ih =>
      intro l hl cl hcl
      cases l with
      | nil =>
        rw [findClusters] at hcl
        cases hcl
      | cons c rest =>
        rw [findClusters] at hcl
        rcases List.mem_cons.mp hcl with rfl | hcl
        · intro he
          cases he
        · exact ih (rest.filter fun o => !_is_duplicate c o)
            (le_trans (List.length_filter_le _ _) (Nat.le_of_succ_le_succ hl)) cl hcl
  exact fun l => H l.length l le_rfl

theorem dedupGroup_isSome (g : List Conference) : (dedupGroup g).isSome = true := by
  unfold dedupGroup
  split
  · rfl
  · apply mapM_option_isSome
    intro cl hcl
    rcases Option.isSome_iff_exists.mp
      (merge_isSome cl (findClusters_ne_nil _ cl hcl)) with ⟨p, hp⟩
    rw [hp]
    rfl

/-- C8: `deduplicate` is total on well-typed records: it returns normally
(`isSome`, i.e. no path raises) on every input, including records without
dates, with empty or missing names, with unparseable date strings, or with
sources absent from the priority table; and an absent or unknown `source`
gets priority `0` (lowest) in the priority lookup used by both the group
sort and the merge sort. -/
theorem c8_deduplicate_total_unknown_source :
    (∀ confs : List Conference, (deduplicate confs).isSome = true) ∧
    (∀ c : Conference, c.source = none → sourcePriority c = 0) ∧
    (∀ c : Conference, ∀ s : String, c.source = some s →
      s ∉ SOURCE_PRIORITY.map Prod.fst → sourcePriority c = 0) := by
  have hlookup : ∀ (l : List (String × Nat)) (s : String),
      s ∉ l.map Prod.fst → l.lookup s = none := by
    intro l
    induction l with
    | nil => intro s _; rfl
    | cons p t ih =>
      intro s h
      obtain ⟨k, v⟩ := p
      simp only [List.map_cons, List.mem_cons, not_or] at h
      rw [List.lookup, show (s == k) = false from beq_eq_false_iff_ne.mpr h.1]
      exact ih s h.2
  refine ⟨?_, ?_, ?_⟩
  · intro confs
    unfold deduplicate
    split
    · rfl
    · rcases Option.isSome_iff_exists.mp
        (mapM_option_isSome (fun g => dedupGroup g.2) (groupFold dedupKey confs)
          fun a _ => dedupGroup_isSome a.2) with ⟨ms, hms⟩
      rw [hms]
      rfl
  · intro c h
    unfold sourcePriority
    rw [h]
    rfl
  · intro c s h hmem
    unfold sourcePriority
    rw [h, show (some s).getD "" = s from rfl, hlookup SOURCE_PRIORITY s hmem]
    rfl

set_option maxRecDepth 8000 in
/-- Witness for C8: a concrete run over records with a missing date, an
empty name, an unparseable date and an unknown source returns normally,
and a concrete unknown source has priority `0`. -/
theorem c8_deduplicate_total_unknown_source_witness :
    (deduplicate
        [{ name := some "", startDate := some "not a date", source := some "my-custom-feed" },
         { name := none, startDate := none }]).isSome = true ∧
      sourcePriority { name := some "x", source := some "my-custom-feed" } = 0 :=
  ⟨c8_deduplicate_total_unknown_source.1 _,
    c8_deduplicate_total_unknown_source.2.2 _ "my-custom-feed" rfl (by decide)⟩

/-! ### Claim C10: `geocode` on an empty city -/

/-- C10: when the city is empty or whitespace-only (its lowered, stripped
form is empty) and the country is non-empty, the empty string is a
substring of every table key, so the partial-match loop returns the first
entry of the static city table — Paris, `(48.8566, 2.3522)` — instead of
`None` or the country fallback. -/
theorem c10_geocode_empty_city_paris (city country : String)
    (hc : pyStripLower city = "") (hn : country ≠ "") :
    geocode city country = some (48.8566, 2.3522) := by
  unfold geocode
  have hcl : (if city = "" then "" else pyStripLower city) = "" := by
    split
    · rfl
    · exact hc
  rw [hcl]
  rfl

/-- Witness for C10 at a concrete whitespace-only city and the non-empty
country `"Japan"` (whose own table entry is ignored). -/
theorem c10_geocode_empty_city_paris_witness :
    geocode "   " "Japan" = some (48.8566, 2.3522) :=
  c10_geocode_empty_city_paris "   " "Japan" (by rfl) (by decide)

/-! ### Claim C9: `_group_by_month` -/

theorem digitVal_le9 (c : Char) (n : Nat) (h : digitVal c = some n) : n ≤ 9 := by
  unfold digitVal at h
  repeat' split at h
  all_goals first
    | (injection h with h; omega)
    | cases h

theorem digitVal_digitChar : ∀ d : Nat, d < 10 → digitVal (digitChar d) = some d := by
  decide

theorem digit_lt_nine : ∀ d : Nat, d < 9 → digitChar d < '9' := by
  decide

theorem digitChar_nine : digitChar 9 = '9' := by decide

theorem parseMonthPart_bounds (r : List Char) (v : Nat) (rest : List Char)
    (h : parseMonthPart r = some (v, rest)) : 1 ≤ v ∧ v ≤ 12 := by
  unfold parseMonthPart at h
  repeat' split at h
  all_goals try cases h
  all_goals try (have h9 := digitVal_le9 _ _ (by assumption))
  all_goals omega

theorem parseDate_bounds (s : String) (y m d : Nat)
    (h : parseDate s = some (y, m, d)) :
    1 ≤ y ∧ y ≤ 9999 ∧ 1 ≤ m ∧ m ≤ 12 := by
  unfold parseDate at h
  split at h
  case _ c1 c2 c3 c4 rest =>
    simp only [Option.bind_eq_bind, Option.bind_eq_some] at h
    obtain ⟨d1, hd1, d2, hd2, d3, hd3, d4, hd4, ⟨mo, rest2⟩, hmo, day, hday, hfin⟩ := h
    have h1 := digitVal_le9 _ _ hd1
    have h2 := digitVal_le9 _ _ hd2
    have h3 := digitVal_le9 _ _ hd3
    have h4 := digitVal_le9 _ _ hd4
    have hmb := parseMonthPart_bounds _ _ _ hmo
    split at hfin
    · next hcond =>
      injection hfin with hfin
      rw [Prod.mk.injEq] at hfin
      obtain ⟨hy, hrest⟩ := hfin
      rw [Prod.mk.injEq] at hrest
      omega
    · cases hfin
  case _ => cases h

/-- The four decimal digits of a four-digit number. -/
theorem natDecChars_four (y : Nat) (h1 : 1000 ≤ y) (h2 : y ≤ 9999) :
    natDecChars 20 y = [digitChar (y / 1000), digitChar (y / 100 % 10),
      digitChar (y / 10 % 10), digitChar (y % 10)] := by
  rw [show (20 : Nat) = 19 + 1 from rfl, natDecChars, if_neg (by omega)]
  rw [show (19 : Nat) = 18 + 1 from rfl, natDecChars, if_neg (by omega)]
  rw [show (18 : Nat) = 17 + 1 from rfl, natDecChars, if_neg (by omega)]
  rw [show (17 : Nat) = 16 + 1 from rfl, natDecChars, if_pos (by omega)]
  have e1 : y / 10 / 10 / 10 = y / 1000 := by omega
  have e2 : y / 10 / 10 % 10 = y / 100 % 10 := by omega
  have e3 : y / 10 % 10 = y / 10 % 10 := rfl
  rw [e1, e2]
  rfl

theorem findSomeCons_none {α β : Type} (f : α → Option β) (a : α) (as : List α)
    (h : f a = none) : List.findSome? f (a :: as) = List.findSome? f as := by
  rw [List.findSome?_cons, h]

theorem findSomeCons_restNone {α β : Type} (f : α → Option β) (a : α) (as : List α)
    (h : List.findSome? f as = none) : List.findSome? f (a :: as) = f a := by
  rw [List.findSome?_cons]
  cases hf : f a
  · rw [h]
  · rfl

set_option maxRecDepth 4000 in
/-- Round trip between `strftime("%B %Y")` and the `%B %Y` parse used by
`month_sort_key`, for four-digit years. -/
theorem parseMonthYear_format (y m : Nat) (hy1 : 1000 ≤ y) (hy2 : y ≤ 9999)
    (hm1 : 1 ≤ m) (hm2 : m ≤ 12) :
    parseMonthYear (formatMonthYear y m) = some (y, m) := by
  have hd1 : digitVal (digitChar (y / 1000)) = some (y / 1000) :=
    digitVal_digitChar _ (by omega)
  have hd2 : digitVal (digitChar (y / 100 % 10)) = some (y / 100 % 10) :=
    digitVal_digitChar _ (by omega)
  have hd3 : digitVal (digitChar (y / 10 % 10)) = some (y / 10 % 10) :=
    digitVal_digitChar _ (by omega)
  have hd4 : digitVal (digitChar (y % 10)) = some (y % 10) :=
    digitVal_digitChar _ (by omega)
  have hnd := natDecChars_four y hy1 hy2
  have hy : ((y / 1000 * 10 + y / 100 % 10) * 10 + y / 10 % 10) * 10 + y % 10 = y := by omega
  interval_cases m
  · have hdata : (formatMonthYear y 1).data =
        'J' :: 'a' :: 'n' :: 'u' :: 'a' :: 'r' :: 'y' :: ' ' :: [digitChar (y / 1000), digitChar (y / 100 % 10),
          digitChar (y / 10 % 10), digitChar (y % 10)] := by
      rw [show (formatMonthYear y 1).data =
        'J' :: 'a' :: 'n' :: 'u' :: 'a' :: 'r' :: 'y' :: ' ' :: natDecChars 20 y from rfl, hnd]
    unfold parseMonthYear
    simp only [hdata, monthNames]
    rw [findSomeCons_restNone _ _ _ (by rfl)]
    show (do
        let d1 ← digitVal (digitChar (y / 1000))
        let d2 ← digitVal (digitChar (y / 100 % 10))
        let d3 ← digitVal (digitChar (y / 10 % 10))
        let d4 ← digitVal (digitChar (y % 10))
        if 1 ≤ ((d1 * 10 + d2) * 10 + d3) * 10 + d4 then
          some (((d1 * 10 + d2) * 10 + d3) * 10 + d4, 1)
        else none) = some (y, 1)
    rw [hd1, hd2, hd3, hd4]
    show (if 1 ≤ ((y / 1000 * 10 + y / 100 % 10) * 10 + y / 10 % 10) * 10 + y % 10 then
        some (((y / 1000 * 10 + y / 100 % 10) * 10 + y / 10 % 10) * 10 + y % 10, 1)
      else none) = some (y, 1)
    rw [hy, if_pos (by omega : (1 : Nat) ≤ y)]
  · have hdata : (formatMonthYear y 2).data =
        'F' :: 'e' :: 'b' :: 'r' :: 'u' :: 'a' :: 'r' :: 'y' :: ' ' :: [digitChar (y / 1000), digitChar (y / 100 % 10),
          digitChar (y / 10 % 10), digitChar (y % 10)] := by
      rw [show (formatMonthYear y 2).data =
        'F' :: 'e' :: 'b' :: 'r' :: 'u' :: 'a' :: 'r' :: 'y' :: ' ' :: natDecChars 20 y from rfl, hnd]
    unfold parseMonthYear
    simp only [hdata, monthNames]
    rw [findSomeCons_none _ _ _ (by rfl)]
    rw [findSomeCons_restNone _ _ _ (by rfl)]
    show (do
        let d1 ← digitVal (digitChar (y / 1000))
        let d2 ← digitVal (digitChar (y / 100 % 10))
        let d3 ← digitVal (digitChar (y / 10 % 10))
        let d4 ← digitVal (digitChar (y % 10))
        if 1 ≤ ((d1 * 10 + d2) * 10 + d3) * 10 + d4 then
          some (((d1 * 10 + d2) * 10 + d3) * 10 + d4, 2)
        else none) = some (y, 2)
    rw [hd1, hd2, hd3, hd4]
    show (if 1 ≤ ((y / 1000 * 10 + y / 100 % 10) * 10 + y / 10 % 10) * 10 + y % 10 then
        some (((y / 1000 * 10 + y / 100 % 10) * 10 + y / 10 % 10) * 10 + y % 10, 2)
      else none) = some (y, 2)
    rw [hy, if_pos (by omega : (1 : Nat) ≤ y)]
  · have hdata : (formatMonthYear y 3).data =
        'M' :: 'a' :: 'r' :: 'c' :: 'h' :: ' ' :: [digitChar (y / 1000), digitChar (y / 100 % 10),
          digitChar (y / 10 % 10), digitChar (y % 10)] := by
      rw [show (formatMonthYear y 3).data =
        'M' :: 'a' :: 'r' :: 'c' :: 'h' :: ' ' :: natDecChars 20 y from rfl, hnd]
    unfold parseMonthYear
    simp only [hdata, monthNames]
    rw [findSomeCons_none _ _ _ (by rfl)]
    rw [findSomeCons_none _ _ _ (by rfl)]
    rw [findSomeCons_restNone _ _ _ (by rfl)]
    show (do
        let d1 ← digitVal (digitChar (y / 1000))
        let d2 ← digitVal (digitChar (y / 100 % 10))
        let d3 ← digitVal (digitChar (y / 10 % 10))
        let d4 ← digitVal (digitChar (y % 10))
        if 1 ≤ ((d1 * 10 + d2) * 10 + d3) * 10 + d4 then
          some (((d1 * 10 + d2) * 10 + d3) * 10 + d4, 3)
        else none) = some (y, 3)
    rw [hd1, hd2, hd3, hd4]
    show (if 1 ≤ ((y / 1000 * 10 + y / 100 % 10) * 10 + y / 10 % 10) * 10 + y % 10 then
        some (((y / 1000 * 10 + y / 100 % 10) * 10 + y / 10 % 10) * 10 + y % 10, 3)
      else none) = some (y, 3)
    rw [hy, if_pos (by omega : (1 : Nat) ≤ y)]
  · have hdata : (formatMonthYear y 4).data =
        'A' :: 'p' :: 'r' :: 'i' :: 'l' :: ' ' :: [digitChar (y / 1000), digitChar (y / 100 % 10),
          digitChar (y / 10 % 10), digitChar (y % 10)] := by
      rw [show (formatMonthYear y 4).data =
        'A' :: 'p' :: 'r' :: 'i' :: 'l' :: ' ' :: natDecChars 20 y from rfl, hnd]
    unfold parseMonthYear
    simp only [hdata, monthNames]
    rw [findSomeCons_none _ _ _ (by rfl)]
    rw [findSomeCons_none _ _ _ (by rfl)]
    rw [findSomeCons_none _ _ _ (by rfl)]
    rw [findSomeCons_restNone _ _ _ (by rfl)]
    show (do
        let d1 ← digitVal (digitChar (y / 1000))
        let d2 ← digitVal (digitChar (y / 100 % 10))
        let d3 ← digitVal (digitChar (y / 10 % 10))
        let d4 ← digitVal (digitChar (y % 10))
        if 1 ≤ ((d1 * 10 + d2) * 10 + d3) * 10 + d4 then
          some (((d1 * 10 + d2) * 10 + d3) * 10 + d4, 4)
        else none) = some (y, 4)
    rw [hd1, hd2, hd3, hd4]
    show (if 1 ≤ ((y / 1000 * 10 + y / 100 % 10) * 10 + y / 10 % 10) * 10 + y % 10 then
        some (((y / 1000 * 10 + y / 100 % 10) * 10 + y / 10 % 10) * 10 + y % 10, 4)
      else none) = some (y, 4)
    rw [hy, if_pos (by omega : (1 : Nat) ≤ y)]
  · have hdata : (formatMonthYear y 5).data =
        'M' :: 'a' :: 'y' :: ' ' :: [digitChar (y / 1000), digitChar (y / 100 % 10),
          digitChar (y / 10 % 10), digitChar (y % 10)] := by
      rw [show (formatMonthYear y 5).data =
        'M' :: 'a' :: 'y' :: ' ' :: natDecChars 20 y from rfl, hnd]
    unfold parseMonthYear
    simp only [hdata, monthNames]
    rw [findSomeCons_none _ _ _ (by rfl)]
    rw [findSomeCons_none _ _ _ (by rfl)]
    rw [findSomeCons_none _ _ _ (by rfl)]
    rw [findSomeCons_none _ _ _ (by rfl)]
    rw [findSomeCons_restNone _ _ _ (by rfl)]
    show (do
        let d1 ← digitVal (digitChar (y / 1000))
        let d2 ← digitVal (digitChar (y / 100 % 10))
        let d3 ← digitVal (digitChar (y / 10 % 10))
        let d4 ← digitVal (digitChar (y % 10))
        if 1 ≤ ((d1 * 10 + d2) * 10 + d3) * 10 + d4 then
          some (((d1 * 10 + d2) * 10 + d3) * 10 + d4, 5)
        else none) = some (y, 5)
    rw [hd1, hd2, hd3, hd4]
    show (if 1 ≤ ((y / 1000 * 10 + y / 100 % 10) * 10 + y / 10 % 10) * 10 + y % 10 then
        some (((y / 1000 * 10 + y / 100 % 10) * 10 + y / 10 % 10) * 10 + y % 10, 5)
      else none) = some (y, 5)
    rw [hy, if_pos (by omega : (1 : Nat) ≤ y)]
  · have hdata : (formatMonthYear y 6).data =
        'J' :: 'u' :: 'n' :: 'e' :: ' ' :: [digitChar (y / 1000), digitChar (y / 100 % 10),
          digitChar (y / 10 % 10), digitChar (y % 10)] := by
      rw [show (formatMonthYear y 6).data =
        'J' :: 'u' :: 'n' :: 'e' :: ' ' :: natDecChars 20 y from rfl, hnd]
    unfold parseMonthYear
    simp only [hdata, monthNames]
    rw [findSomeCons_none _ _ _ (by rfl)]
    rw [findSomeCons_none _ _ _ (by rfl)]
    rw [findSomeCons_none _ _ _ (by rfl)]
    rw [findSomeCons_none _ _ _ (by rfl)]
    rw [findSomeCons_none _ _ _ (by rfl)]
    rw [findSomeCons_restNone _ _ _ (by rfl)]
    show (do
        let d1 ← digitVal (digitChar (y / 1000))
        let d2 ← digitVal (digitChar (y / 100 % 10))
        let d3 ← digitVal (digitChar (y / 10 % 10))
        let d4 ← digitVal (digitChar (y % 10))
        if 1 ≤ ((d1 * 10 + d2) * 10 + d3) * 10 + d4 then
          some (((d1 * 10 + d2) * 10 + d3) * 10 + d4, 6)
        else none) = some (y, 6)
    rw [hd1, hd2, hd3, hd4]
    show (if 1 ≤ ((y / 1000 * 10 + y / 100 % 10) * 10 + y / 10 % 10) * 10 + y % 10 then
        some (((y / 1000 * 10 + y / 100 % 10) * 10 + y / 10 % 10) * 10 + y % 10, 6)
      else none) = some (y, 6)
    rw [hy, if_pos (by omega : (1 : Nat) ≤ y)]
  · have hdata : (formatMonthYear y 7).data =
        'J' :: 'u' :: 'l' :: 'y' :: ' ' :: [digitChar (y / 1000), digitChar (y / 100 % 10),
          digitChar (y / 10 % 10), digitChar (y % 10)] := by
      rw [show (formatMonthYear y 7).data =
        'J' :: 'u' :: 'l' :: 'y' :: ' ' :: natDecChars 20 y from rfl, hnd]
    unfold parseMonthYear
    simp only [hdata, monthNames]
    rw [findSomeCons_none _ _ _ (by rfl)]
    rw [findSomeCons_none _ _ _ (by rfl)]
    rw [findSomeCons_none _ _ _ (by rfl)]
    rw [findSomeCons_none _ _ _ (by rfl)]
    rw [findSomeCons_none _ _ _ (by rfl)]
    rw [findSomeCons_none _ _ _ (by rfl)]
    rw [findSomeCons_restNone _ _ _ (by rfl)]
    show (do
        let d1 ← digitVal (digitChar (y / 1000))
        let d2 ← digitVal (digitChar (y / 100 % 10))
        let d3 ← digitVal (digitChar (y / 10 % 10))
        let d4 ← digitVal (digitChar (y % 10))
        if 1 ≤ ((d1 * 10 + d2) * 10 + d3) * 10 + d4 then
          some (((d1 * 10 + d2) * 10 + d3) * 10 + d4, 7)
        else none) = some (y, 7)
    rw [hd1, hd2, hd3, hd4]
    show (if 1 ≤ ((y / 1000 * 10 + y / 100 % 10) * 10 + y / 10 % 10) * 10 + y % 10 then
        some (((y / 1000 * 10 + y / 100 % 10) * 10 + y / 10 % 10) * 10 + y % 10, 7)
      else none) = some (y, 7)
    rw [hy, if_pos (by omega : (1 : Nat) ≤ y)]
  · have hdata : (formatMonthYear y 8).data =
        'A' :: 'u' :: 'g' :: 'u' :: 's' :: 't' :: ' ' :: [digitChar (y / 1000), digitChar (y / 100 % 10),
          digitChar (y / 10 % 10), digitChar (y % 10)] := by
      rw [show (formatMonthYear y 8).data =
        'A' :: 'u' :: 'g' :: 'u' :: 's' :: 't' :: ' ' :: natDecChars 20 y from rfl, hnd]
    unfold parseMonthYear
    simp only [hdata, monthNames]
    rw [findSomeCons_none _ _ _ (by rfl)]
    rw [findSomeCons_none _ _ _ (by rfl)]
    rw [findSomeCons_none _ _ _ (by rfl)]
    rw [findSomeCons_none _ _ _ (by rfl)]
    rw [findSomeCons_none _ _ _ (by rfl)]
    rw [findSomeCons_none _ _ _ (by rfl)]
    rw [findSomeCons_none _ _ _ (by rfl)]
    rw [findSomeCons_restNone _ _ _ (by rfl)]
    show (do
        let d1 ← digitVal (digitChar (y / 1000))
        let d2 ← digitVal (digitChar (y / 100 % 10))
        let d3 ← digitVal (digitChar (y / 10 % 10))
        let d4 ← digitVal (digitChar (y % 10))
        if 1 ≤ ((d1 * 10 + d2) * 10 + d3) * 10 + d4 then
          some (((d1 * 10 + d2) * 10 + d3) * 10 + d4, 8)
        else none) = some (y, 8)
    rw [hd1, hd2, hd3, hd4]
    show (if 1 ≤ ((y / 1000 * 10 + y / 100 % 10) * 10 + y / 10 % 10) * 10 + y % 10 then
        some (((y / 1000 * 10 + y / 100 % 10) * 10 + y / 10 % 10) * 10 + y % 10, 8)
      else none) = some (y, 8)
    rw [hy, if_pos (by omega : (1 : Nat) ≤ y)]
  · have hdata : (formatMonthYear y 9).data =
        'S' :: 'e' :: 'p' :: 't' :: 'e' :: 'm' :: 'b' :: 'e' :: 'r' :: ' ' :: [digitChar (y / 1000), digitChar (y / 100 % 10),
          digitChar (y / 10 % 10), digitChar (y % 10)] := by
      rw [show (formatMonthYear y 9).data =
        'S' :: 'e' :: 'p' :: 't' :: 'e' :: 'm' :: 'b' :: 'e' :: 'r' :: ' ' :: natDecChars 20 y from rfl, hnd]
    unfold parseMonthYear
    simp only [hdata, monthNames]
    rw [findSomeCons_none _ _ _ (by rfl)]
    rw [findSomeCons_none _ _ _ (by rfl)]
    rw [findSomeCons_none _ _ _ (by rfl)]
    rw [findSomeCons_none _ _ _ (by rfl)]
    rw [findSomeCons_none _ _ _ (by rfl)]
    rw [findSomeCons_none _ _ _ (by rfl)]
    rw [findSomeCons_none _ _ _ (by rfl)]
    rw [findSomeCons_none _ _ _ (by rfl)]
    rw [findSomeCons_restNone _ _ _ (by rfl)]
    show (do
        let d1 ← digitVal (digitChar (y / 1000))
        let d2 ← digitVal (digitChar (y / 100 % 10))
        let d3 ← digitVal (digitChar (y / 10 % 10))
        let d4 ← digitVal (digitChar (y % 10))
        if 1 ≤ ((d1 * 10 + d2) * 10 + d3) * 10 + d4 then
          some (((d1 * 10 + d2) * 10 + d3) * 10 + d4, 9)
        else none) = some (y, 9)
    rw [hd1, hd2, hd3, hd4]
    show (if 1 ≤ ((y / 1000 * 10 + y / 100 % 10) * 10 + y / 10 % 10) * 10 + y % 10 then
        some (((y / 1000 * 10 + y / 100 % 10) * 10 + y / 10 % 10) * 10 + y % 10, 9)
      else none) = some (y, 9)
    rw [hy, if_pos (by omega : (1 : Nat) ≤ y)]
  · have hdata : (formatMonthYear y 10).data =
        'O' :: 'c' :: 't' :: 'o' :: 'b' :: 'e' :: 'r' :: ' ' :: [digitChar (y / 1000), digitChar (y / 100 % 10),
          digitChar (y / 10 % 10), digitChar (y % 10)] := by
      rw [show (formatMonthYear y 10).data =
        'O' :: 'c' :: 't' :: 'o' :: 'b' :: 'e' :: 'r' :: ' ' :: natDecChars 20 y from rfl, hnd]
    unfold parseMonthYear
    simp only [hdata, monthNames]
    rw [findSomeCons_none _ _ _ (by rfl)]
    rw [findSomeCons_none _ _ _ (by rfl)]
    rw [findSomeCons_none _ _ _ (by rfl)]
    rw [findSomeCons_none _ _ _ (by rfl)]
    rw [findSomeCons_none _ _ _ (by rfl)]
    rw [findSomeCons_none _ _ _ (by rfl)]
    rw [findSomeCons_none _ _ _ (by rfl)]
    rw [findSomeCons_none _ _ _ (by rfl)]
    rw [findSomeCons_none _ _ _ (by rfl)]
    rw [findSomeCons_restNone _ _ _ (by rfl)]
    show (do
        let d1 ← digitVal (digitChar (y / 1000))
        let d2 ← digitVal (digitChar (y / 100 % 10))
        let d3 ← digitVal (digitChar (y / 10 % 10))
        let d4 ← digitVal (digitChar (y % 10))
        if 1 ≤ ((d1 * 10 + d2) * 10 + d3) * 10 + d4 then
          some (((d1 * 10 + d2) * 10 + d3) * 10 + d4, 10)
        else none) = some (y, 10)
    rw [hd1, hd2, hd3, hd4]
    show (if 1 ≤ ((y / 1000 * 10 + y / 100 % 10) * 10 + y / 10 % 10) * 10 + y % 10 then
        some (((y / 1000 * 10 + y / 100 % 10) * 10 + y / 10 % 10) * 10 + y % 10, 10)
      else none) = some (y, 10)
    rw [hy, if_pos (by omega : (1 : Nat) ≤ y)]
  · have hdata : (formatMonthYear y 11).data =
        'N' :: 'o' :: 'v' :: 'e' :: 'm' :: 'b' :: 'e' :: 'r' :: ' ' :: [digitChar (y / 1000), digitChar (y / 100 % 10),
          digitChar (y / 10 % 10), digitChar (y % 10)] := by
      rw [show (formatMonthYear y 11).data =
        'N' :: 'o' :: 'v' :: 'e' :: 'm' :: 'b' :: 'e' :: 'r' :: ' ' :: natDecChars 20 y from rfl, hnd]
    unfold parseMonthYear
    simp only [hdata, monthNames]
    rw [findSomeCons_none _ _ _ (by rfl)]
    rw [findSomeCons_none _ _ _ (by rfl)]
    rw [findSomeCons_none _ _ _ (by rfl)]
    rw [findSomeCons_none _ _ _ (by rfl)]
    rw [findSomeCons_none _ _ _ (by rfl)]
    rw [findSomeCons_none _ _ _ (by rfl)]
    rw [findSomeCons_none _ _ _ (by rfl)]
    rw [findSomeCons_none _ _ _ (by rfl)]
    rw [findSomeCons_none _ _ _ (by rfl)]
    rw [findSomeCons_none _ _ _ (by rfl)]
    rw [findSomeCons_restNone _ _ _ (by rfl)]
    show (do
        let d1 ← digitVal (digitChar (y / 1000))
        let d2 ← digitVal (digitChar (y / 100 % 10))
        let d3 ← digitVal (digitChar (y / 10 % 10))
        let d4 ← digitVal (digitChar (y % 10))
        if 1 ≤ ((d1 * 10 + d2) * 10 + d3) * 10 + d4 then
          some (((d1 * 10 + d2) * 10 + d3) * 10 + d4, 11)
        else none) = some (y, 11)
    rw [hd1, hd2, hd3, hd4]
    show (if 1 ≤ ((y / 1000 * 10 + y / 100 % 10) * 10 + y / 10 % 10) * 10 + y % 10 then
        some (((y / 1000 * 10 + y / 100 % 10) * 10 + y / 10 % 10) * 10 + y % 10, 11)
      else none) = some (y, 11)
    rw [hy, if_pos (by omega : (1 : Nat) ≤ y)]
  · have hdata : (formatMonthYear y 12).data =
        'D' :: 'e' :: 'c' :: 'e' :: 'm' :: 'b' :: 'e' :: 'r' :: ' ' :: [digitChar (y / 1000), digitChar (y / 100 % 10),
          digitChar (y / 10 % 10), digitChar (y % 10)] := by
      rw [show (formatMonthYear y 12).data =
        'D' :: 'e' :: 'c' :: 'e' :: 'm' :: 'b' :: 'e' :: 'r' :: ' ' :: natDecChars 20 y from rfl, hnd]
    unfold parseMonthYear
    simp only [hdata, monthNames]
    rw [findSomeCons_none _ _ _ (by rfl)]
    rw [findSomeCons_none _ _ _ (by rfl)]
    rw [findSomeCons_none _ _ _ (by rfl)]
    rw [findSomeCons_none _ _ _ (by rfl)]
    rw [findSomeCons_none _ _ _ (by rfl)]
    rw [findSomeCons_none _ _ _ (by rfl)]
    rw [findSomeCons_none _ _ _ (by rfl)]
    rw [findSomeCons_none _ _ _ (by rfl)]
    rw [findSomeCons_none _ _ _ (by rfl)]
    rw [findSomeCons_none _ _ _ (by rfl)]
    rw [findSomeCons_none _ _ _ (by rfl)]
    rw [findSomeCons_restNone _ _ _ (by rfl)]
    show (do
        let d1 ← digitVal (digitChar (y / 1000))
        let d2 ← digitVal (digitChar (y / 100 % 10))
        let d3 ← digitVal (digitChar (y / 10 % 10))
        let d4 ← digitVal (digitChar (y % 10))
        if 1 ≤ ((d1 * 10 + d2) * 10 + d3) * 10 + d4 then
          some (((d1 * 10 + d2) * 10 + d3) * 10 + d4, 12)
        else none) = some (y, 12)
    rw [hd1, hd2, hd3, hd4]
    show (if 1 ≤ ((y / 1000 * 10 + y / 100 % 10) * 10 + y / 10 % 10) * 10 + y % 10 then
        some (((y / 1000 * 10 + y / 100 % 10) * 10 + y / 10 % 10) * 10 + y % 10, 12)
      else none) = some (y, 12)
    rw [hy, if_pos (by omega : (1 : Nat) ≤ y)]

section GroupFold

variable {α : Type} (key : α → String)

theorem addToGroups_key_inv (gs : List (String × List α)) (k : String) (c : α)
    (h : ∀ p ∈ gs, ∀ x ∈ p.2, key x = p.1) (hc : key c = k) :
    ∀ p ∈ addToGroups gs k c, ∀ x ∈ p.2, key x = p.1 := by
  induction gs with
  | nil =>
    intro p hp x hx
    rw [addToGroups] at hp
    rcases List.mem_singleton.mp hp with rfl
    rcases List.mem_singleton.mp hx with rfl
    exact hc
  | cons g rest ih =>
    obtain ⟨k', cs⟩ := g
    intro p hp x hx
    rw [addToGroups] at hp
    split at hp
    · next heq =>
      rcases List.mem_cons.mp hp with rfl | hp
      · rcases List.mem_append.mp hx with hx | hx
        · exact h (k', cs) (List.mem_cons_self _ _) x hx
        · rcases List.mem_singleton.mp hx with rfl
          rw [hc, heq]
      · exact h p (List.mem_cons_of_mem _ hp) x hx
    · rcases List.mem_cons.mp hp with rfl | hp
      · exact h (k', cs) (List.mem_cons_self _ _) x hx
      · exact ih (fun q hq => h q (List.mem_cons_of_mem _ hq)) _ hp x hx

theorem groupFold_key (l : List α) :
    ∀ p ∈ groupFold key l, ∀ x ∈ p.2, key x = p.1 := by
  suffices H : ∀ gs, (∀ p ∈ gs, ∀ x ∈ p.2, key x = p.1) →
      ∀ p ∈ l.foldl (fun gs c => addToGroups gs (key c) c) gs, ∀ x ∈ p.2, key x = p.1 by
    exact H [] (by intro p hp; cases hp)
  induction l with
  | nil => intro gs h; exact h
  | cons c t ih =>
    intro gs h
    exact ih _ (addToGroups_key_inv key gs (key c) c h rfl)

theorem addToGroups_subset_inv (gs : List (String × List α)) (k : String) (c : α)
    (S : α → Prop) (h : ∀ p ∈ gs, ∀ x ∈ p.2, S x) (hc : S c) :
    ∀ p ∈ addToGroups gs k c, ∀ x ∈ p.2, S x := by
  induction gs with
  | nil =>
    intro p hp x hx
    rw [addToGroups] at hp
    rcases List.mem_singleton.mp hp with rfl
    rcases List.mem_singleton.mp hx with rfl
    exact hc
  | cons g rest ih =>
    obtain ⟨k', cs⟩ := g
    intro p hp x hx
    rw [addToGroups] at hp
    split at hp
    · rcases List.mem_cons.mp hp with rfl | hp
      · rcases List.mem_append.mp hx with hx | hx
        · exact h (k', cs) (List.mem_cons_self _ _) x hx
        · rcases List.mem_singleton.mp hx with rfl
          exact hc
      · exact h p (List.mem_cons_of_mem _ hp) x hx
    · rcases List.mem_cons.mp hp with rfl | hp
      · exact h (k', cs) (List.mem_cons_self _ _) x hx
      · exact ih (fun q hq => h q (List.mem_cons_of_mem _ hq)) _ hp x hx

theorem groupFold_subset (l : List α) :
    ∀ p ∈ groupFold key l, ∀ x ∈ p.2, x ∈ l := by
  suffices H : ∀ (t : List α) (S : α → Prop) (gs : List (String × List α)),
      (∀ p ∈ gs, ∀ x ∈ p.2, S x) → (∀ x ∈ t, S x) →
      ∀ p ∈ t.foldl (fun gs c => addToGroups gs (key c) c) gs, ∀ x ∈ p.2, S x by
    exact H l (· ∈ l) [] (by intro p hp; cases hp) (fun x hx => hx)
  intro t
  induction t with
  | nil => intro S gs h _; exact h
  | cons c t ih =>
    intro S gs h hS
    exact ih S _
      (addToGroups_subset_inv gs (key c) c S h (hS c (List.mem_cons_self _ _)))
      (fun x hx => hS x (List.mem_cons_of_mem _ hx))

theorem addToGroups_mem_self (gs : List (String × List α)) (k : String) (c : α) :
    ∃ b, (k, b) ∈ addToGroups gs k c ∧ c ∈ b := by
  induction gs with
  | nil => exact ⟨[c], List.mem_singleton_self _, List.mem_singleton_self _⟩
  | cons g rest ih =>
    obtain ⟨k', cs⟩ := g
    rw [addToGroups]
    split
    · next heq =>
      subst heq
      exact ⟨cs ++ [c], List.mem_cons_self _ _, List.mem_append_right _ (List.mem_singleton_self _)⟩
    · obtain ⟨b, hb, hcb⟩ := ih
      exact ⟨b, List.mem_cons_of_mem _ hb, hcb⟩

theorem addToGroups_mem_mono (gs : List (String × List α)) (k k0 : String) (c c0 : α)
    (h : ∃ b, (k0, b) ∈ gs ∧ c0 ∈ b) :
    ∃ b, (k0, b) ∈ addToGroups gs k c ∧ c0 ∈ b := by
  induction gs with
  | nil =>
    obtain ⟨b, hb, -⟩ := h
    cases hb
  | cons g rest ih =>
    obtain ⟨k', cs⟩ := g
    obtain ⟨b, hb, hcb⟩ := h
    rw [addToGroups]
    split
    · next heq =>
      rcases List.mem_cons.mp hb with hpair | hb
      · have hk0 : k0 = k' := congrArg Prod.fst hpair
        have hbcs : b = cs := congrArg Prod.snd hpair
        subst hk0
        exact ⟨cs ++ [c], List.mem_cons_self _ _, List.mem_append_left _ (hbcs ▸ hcb)⟩
      · exact ⟨b, List.mem_cons_of_mem _ hb, hcb⟩
    · rcases List.mem_cons.mp hb with hpair | hb
      · have hk0 : k0 = k' := congrArg Prod.fst hpair
        have hbcs : b = cs := congrArg Prod.snd hpair
        subst hk0
        exact ⟨cs, List.mem_cons_self _ _, hbcs ▸ hcb⟩
      · obtain ⟨b', hb', hcb'⟩ := ih ⟨b, hb, hcb⟩
        exact ⟨b', List.mem_cons_of_mem _ hb', hcb'⟩

theorem groupFold_mem (l : List α) :
    ∀ c ∈ l, ∃ b, (key c, b) ∈ groupFold key l ∧ c ∈ b := by
  suffices H : ∀ (t : List α) (gs : List (String × List α)) (k0 : String) (c0 : α),
      ((∃ b, (k0, b) ∈ gs ∧ c0 ∈ b) ∨ (c0 ∈ t ∧ k0 = key c0)) →
      ∃ b, (k0, b) ∈ t.foldl (fun gs c => addToGroups gs (key c) c) gs ∧ c0 ∈ b by
    intro c hc
    exact H l [] (key c) c (Or.inr ⟨hc, rfl⟩)
  intro t
  induction t with
  | nil =>
    intro gs k0 c0 h
    rcases h with h | ⟨hc, -⟩
    · exact h
    · cases hc
  | cons c t ih =>
    intro gs k0 c0 h
    rcases h with h | ⟨hc, rfl⟩
    · exact ih _ k0 c0 (Or.inl (addToGroups_mem_mono gs (key c) k0 c c0 h))
    · rcases List.mem_cons.mp hc with rfl | hc
      · exact ih _ (key c0) c0 (Or.inl (addToGroups_mem_self gs (key c0) c0))
      · exact ih _ (key c0) c0 (Or.inr ⟨hc, rfl⟩)

theorem addToGroups_ne_nil (gs : List (String × List α)) (k : String) (c : α)
    (h : ∀ p ∈ gs, p.2 ≠ []) : ∀ p ∈ addToGroups gs k c, p.2 ≠ [] := by
  induction gs with
  | nil =>
    intro p hp
    rcases List.mem_singleton.mp hp with rfl
    simp
  | cons g rest ih =>
    obtain ⟨k', cs⟩ := g
    intro p hp
    rw [addToGroups] at hp
    split at hp
    · rcases List.mem_cons.mp hp with rfl | hp
      · simp
      · exact h p (List.mem_cons_of_mem _ hp)
    · rcases List.mem_cons.mp hp with rfl | hp
      · exact h (k', cs) (List.mem_cons_self _ _)
      · exact ih (fun q hq => h q (List.mem_cons_of_mem _ hq)) _ hp

theorem groupFold_ne_nil (l : List α) : ∀ p ∈ groupFold key l, p.2 ≠ [] := by
  suffices H : ∀ gs, (∀ p ∈ gs, p.2 ≠ []) →
      ∀ p ∈ l.foldl (fun gs c => addToGroups gs (key c) c) gs, p.2 ≠ [] by
    exact H [] (by intro p hp; cases hp)
  induction l with
  | nil => intro gs h; exact h
  | cons c t ih =>
    intro gs h
    exact ih _ (addToGroups_ne_nil gs (key c) c h)

end GroupFold

/-- Stable insertion sort by a string key: sortedness and permutation. -/
theorem sortAsc_sorted_perm {α : Type} (f : α → String) (l : List α) :
    List.Sorted (fun a b => f a ≤ f b) (l.insertionSort fun a b => f a ≤ f b) ∧
      (l.insertionSort fun a b => f a ≤ f b).Perm l := by
  haveI : IsTotal α (fun a b => f a ≤ f b) := ⟨fun a b => le_total _ _⟩
  haveI : IsTrans α (fun a b => f a ≤ f b) := ⟨fun _ _ _ hab hbc => le_trans hab hbc⟩
  exact ⟨List.sorted_insertionSort _ _, List.perm_insertionSort _ _⟩

theorem pairwise_rel_getLast {α : Type} (R : α → α → Prop) :
    ∀ l : List α, l.Pairwise R → ∀ a ∈ l, ∀ b, l.getLast? = some b → a ≠ b → R a b := by
  intro l
  induction l with
  | nil => intro _ a ha; cases ha
  | cons x xs ih =>
    intro h a ha b hb hne
    cases xs with
    | nil =>
      rcases List.mem_singleton.mp ha with rfl
      rw [List.getLast?_singleton] at hb
      injection hb with hb
      exact absurd hb hne
    | cons y ys =>
      rw [List.getLast?_cons_cons] at hb
      rcases List.mem_cons.mp ha with rfl | ha'
      · exact (List.pairwise_cons.mp h).1 b (List.mem_of_getLast?_eq_some hb)
      · exact ih (List.pairwise_cons.mp h).2 a ha' b hb hne

/-- Lexicographic comparison: a four-digit block of a number at most
`9998` is smaller than `9999`, whatever follows. -/
theorem fourDigits_lt (y : Nat) (h1 : 1000 ≤ y) (h2 : y ≤ 9998) (r1 r2 : List Char) :
    List.Lex (fun a b : Char => a < b) (digitChar (y / 1000) :: digitChar (y / 100 % 10) ::
        digitChar (y / 10 % 10) :: digitChar (y % 10) :: r1)
      ('9' :: '9' :: '9' :: '9' :: r2) := by
  by_cases e1 : y / 1000 = 9
  · rw [e1, digitChar_nine]
    refine List.Lex.cons ?_
    by_cases e2 : y / 100 % 10 = 9
    · rw [e2, digitChar_nine]
      refine List.Lex.cons ?_
      by_cases e3 : y / 10 % 10 = 9
      · rw [e3, digitChar_nine]
        refine List.Lex.cons ?_
        exact List.Lex.rel (digit_lt_nine _ (by omega))
      · exact List.Lex.rel (digit_lt_nine _ (by omega))
    · exact List.Lex.rel (digit_lt_nine _ (by omega))
  · exact List.Lex.rel (digit_lt_nine _ (by omega))

/-- A valid month key sorts strictly below the `"9999-12"` sentinel shared
by `"TBD"` and unparseable keys. -/
theorem monthSortKey_lt_TBD (y m : Nat) (hy1 : 1000 ≤ y) (hy2 : y ≤ 9998)
    (hm1 : 1 ≤ m) (hm2 : m ≤ 12) :
    monthSortKey (formatMonthYear y m) < monthSortKey "TBD" := by
  have hparse := parseMonthYear_format y m hy1 (by omega) hm1 hm2
  have hneq : formatMonthYear y m ≠ "TBD" := by
    intro he
    rw [he] at hparse
    rw [show parseMonthYear "TBD" = none from rfl] at hparse
    cases hparse
  have hk : monthSortKey (formatMonthYear y m) =
      natDecStr y ++ "-" ++ String.mk [digitChar (m / 10), digitChar (m % 10)] := by
    unfold monthSortKey
    rw [if_neg hneq, hparse]
  have hTBD : monthSortKey "TBD" = "9999-12" := rfl
  rw [hk, hTBD]
  refine String.lt_iff_toList_lt.mpr ?_
  show (natDecStr y ++ "-" ++ String.mk [digitChar (m / 10), digitChar (m % 10)]).data <
    ("9999-12" : String).data
  rw [show (natDecStr y ++ "-" ++ String.mk [digitChar (m / 10), digitChar (m % 10)]).data =
      (natDecChars 20 y ++ ['-']) ++ [digitChar (m / 10), digitChar (m % 10)] from rfl,
    natDecChars_four y hy1 (by omega)]
  show List.Lex (fun a b : Char => a < b) (digitChar (y / 1000) :: digitChar (y / 100 % 10) ::
      digitChar (y / 10 % 10) :: digitChar (y % 10) ::
      ('-' :: digitChar (m / 10) :: digitChar (m % 10) :: []))
    ('9' :: '9' :: '9' :: '9' :: ('-' :: '1' :: '2' :: []))
  exact fourDigits_lt y hy1 hy2 _ _

/-- Structure of a non-`"TBD"` month key: the record carries a non-empty,
parseable `startDate` and its key is the formatted month. -/
theorem monthKeyOf_struct (c : Conference) (h : monthKeyOf c ≠ "TBD") :
    ∃ s y m d, c.startDate = some s ∧ s ≠ "" ∧ parseDate s = some (y, m, d) ∧
      monthKeyOf c = formatMonthYear y m := by
  rcases hcs : c.startDate with _ | s
  · exact absurd (by unfold monthKeyOf; rw [hcs]) h
  · by_cases he : s = ""
    · refine absurd ?_ h
      unfold monthKeyOf
      rw [hcs]
      show (if s = "" then "TBD" else _) = "TBD"
      rw [if_pos he]
    · rcases hp : parseDate s with _ | ⟨y, m, d⟩
      · refine absurd ?_ h
        unfold monthKeyOf
        rw [hcs]
        show (if s = "" then "TBD" else _) = "TBD"
        rw [if_neg he, hp]
      · refine ⟨s, y, m, d, rfl, he, hp, ?_⟩
        unfold monthKeyOf
        rw [hcs]
        show (if s = "" then "TBD" else _) = _
        rw [if_neg he, hp]

/-- A record with a parseable `startDate` lands under its formatted month. -/
theorem monthKeyOf_of_parse (c : Conference) (s : String) (y m d : Nat)
    (hs : c.startDate = some s) (hne : s ≠ "") (hp : parseDate s = some (y, m, d)) :
    monthKeyOf c = formatMonthYear y m := by
  unfold monthKeyOf
  rw [hs]
  show (if s = "" then "TBD" else _) = _
  rw [if_neg hne, hp]

/-- A real month key is never the `"TBD"` sentinel. -/
theorem formatMonthYear_ne_TBD (y m : Nat) (hy1 : 1000 ≤ y) (hy2 : y ≤ 9999)
    (hm1 : 1 ≤ m) (hm2 : m ≤ 12) : formatMonthYear y m ≠ "TBD" := by
  intro he
  have hparse := parseMonthYear_format y m hy1 hy2 hm1 hm2
  rw [he, show parseMonthYear "TBD" = none from rfl] at hparse
  cases hparse

/-- `_group_by_month` unfolded to its three phases. -/
theorem group_by_month_eq (confs : List Conference) :
    _group_by_month confs =
      ((groupFold monthKeyOf confs).map fun g =>
        (g.1, g.2.insertionSort fun a b => withinKey a ≤ withinKey b)).insertionSort
        (fun a b => monthSortKey a.1 ≤ monthSortKey b.1) := rfl

/-- Every input record lands in the bucket of its month key. -/
theorem group_by_month_mem (confs : List Conference) (c : Conference) (hc : c ∈ confs) :
    ∃ b, (monthKeyOf c, b) ∈ _group_by_month confs ∧ c ∈ b := by
  obtain ⟨b, hb, hcb⟩ := groupFold_mem monthKeyOf confs c hc
  refine ⟨b.insertionSort fun a b => withinKey a ≤ withinKey b, ?_, ?_⟩
  · rw [group_by_month_eq]
    refine (List.perm_insertionSort _ _).mem_iff.mpr ?_
    exact List.mem_map_of_mem _ hb
  · exact (List.perm_insertionSort _ _).mem_iff.mpr hcb

/-- Every output bucket is a sorted `groupFold` bucket. -/
theorem group_by_month_src (confs : List Conference) (p : String × List Conference)
    (hp : p ∈ _group_by_month confs) :
    ∃ g ∈ groupFold monthKeyOf confs,
      p = (g.1, g.2.insertionSort fun a b => withinKey a ≤ withinKey b) := by
  rw [group_by_month_eq] at hp
  have hp2 := (List.perm_insertionSort _ _).mem_iff.mp hp
  obtain ⟨g, hg, hfg⟩ := List.mem_map.mp hp2
  exact ⟨g, hg, hfg.symm⟩

/-- Under well-dated inputs, every output key other than `"TBD"` sorts
strictly below it. -/
theorem key_lt_TBD (confs : List Conference)
    (hw : ∀ c ∈ confs, ∀ s, c.startDate = some s → s ≠ "" →
      ∃ y m d, parseDate s = some (y, m, d) ∧ 1000 ≤ y ∧ y ≤ 9998)
    (k : String) (hk : k ∈ (_group_by_month confs).map Prod.fst) (hne : k ≠ "TBD") :
    monthSortKey k < monthSortKey "TBD" := by
  obtain ⟨p, hp, hpk⟩ := List.mem_map.mp hk
  obtain ⟨g, hg, hpg⟩ := group_by_month_src confs p hp
  have hnn := groupFold_ne_nil monthKeyOf confs g hg
  rcases hg2 : g.2 with _ | ⟨x, xs⟩
  · exact absurd hg2 hnn
  have hx : x ∈ g.2 := by rw [hg2]; exact List.mem_cons_self _ _
  have hkeyx : monthKeyOf x = g.1 := groupFold_key monthKeyOf confs g hg x hx
  have hxconfs : x ∈ confs := groupFold_subset monthKeyOf confs g hg x hx
  have hk1 : k = g.1 := by rw [hpg] at hpk; exact hpk.symm
  have hmk : monthKeyOf x ≠ "TBD" := by rw [hkeyx, ← hk1]; exact hne
  obtain ⟨s, y, m, d, hs, hsne, hparse, hkform⟩ := monthKeyOf_struct x hmk
  obtain ⟨y', m', d', hp', hy1, hy2⟩ := hw x hxconfs s hs hsne
  rw [hparse] at hp'
  injection hp' with hp'
  rw [Prod.mk.injEq] at hp'
  obtain ⟨hy, -⟩ := hp'
  have hb := parseDate_bounds s y m d hparse
  have hlt := monthSortKey_lt_TBD y m (by omega) (by omega) hb.2.2.1 hb.2.2.2
  rw [hk1, ← hkeyx, hkform]
  exact hlt

/-- Under well-dated inputs each bucket is homogeneous: its records are
start-dated exactly when the bucket key is not `"TBD"`. -/
theorem bucket_homogeneous (confs : List Conference)
    (hw : ∀ c ∈ confs, ∀ s, c.startDate = some s → s ≠ "" →
      ∃ y m d, parseDate s = some (y, m, d) ∧ 1000 ≤ y ∧ y ≤ 9998)
    (g : String × List Conference) (hg : g ∈ groupFold monthKeyOf confs)
    (x : Conference) (hx : x ∈ g.2) :
    strTruthy x.startDate = true ↔ g.1 ≠ "TBD" := by
  have hkeyx : monthKeyOf x = g.1 := groupFold_key monthKeyOf confs g hg x hx
  have hxconfs : x ∈ confs := groupFold_subset monthKeyOf confs g hg x hx
  constructor
  · intro ht hTBD
    rcases hs : x.startDate with _ | s
    · rw [hs] at ht; cases ht
    · have hsne : s ≠ "" := by
        rw [hs] at ht
        simp only [strTruthy, bne_iff_ne] at ht
        exact ht
      obtain ⟨y, m, d, hp, hy1, hy2⟩ := hw x hxconfs s hs hsne
      have hb := parseDate_bounds s y m d hp
      have hkx := monthKeyOf_of_parse x s y m d hs hsne hp
      rw [hkx] at hkeyx
      exact formatMonthYear_ne_TBD y m (by omega) (by omega) hb.2.2.1 hb.2.2.2
        (hkeyx.trans hTBD)
  · intro hne
    rcases hs : x.startDate with _ | s
    · have hTBD : monthKeyOf x = "TBD" := by unfold monthKeyOf; rw [hs]
      exact absurd (hkeyx.symm.trans hTBD) hne
    · by_cases he : s = ""
      · have hTBD : monthKeyOf x = "TBD" := by
          unfold monthKeyOf
          rw [hs]
          show (if s = "" then "TBD" else _) = "TBD"
          rw [if_pos he]
        exact absurd (hkeyx.symm.trans hTBD) hne
      · simp only [strTruthy, bne_iff_ne]
        exact he

set_option maxRecDepth 4000 in
/-- **C9** (amended). On inputs whose present, non-empty `startDate`s all
parse as valid `YYYY-MM-DD` dates with year between 1000 and 9998,
`_group_by_month` places a record dated `"2026-03-05"` under `"March 2026"`
and an undated record under `"TBD"`; the output keys are sorted by
`month_sort_key` with `"TBD"` last, and each bucket is sorted by the
`startDate`-or-`"9999-12-31"` key with no undated record ahead of a dated
one. -/
theorem c9_group_by_month_order (confs : List Conference)
    (hw : ∀ c ∈ confs, ∀ s, c.startDate = some s → s ≠ "" →
      ∃ y m d, parseDate s = some (y, m, d) ∧ 1000 ≤ y ∧ y ≤ 9998) :
    (∀ c ∈ confs, c.startDate = some "2026-03-05" →
      ∃ b, ("March 2026", b) ∈ _group_by_month confs ∧ c ∈ b) ∧
    (∀ c ∈ confs, c.startDate = none →
      ∃ b, ("TBD", b) ∈ _group_by_month confs ∧ c ∈ b) ∧
    ((_group_by_month confs).map Prod.fst).Pairwise
      (fun a b => monthSortKey a ≤ monthSortKey b) ∧
    ("TBD" ∈ (_group_by_month confs).map Prod.fst →
      ((_group_by_month confs).map Prod.fst).getLast? = some "TBD") ∧
    (∀ p ∈ _group_by_month confs,
      p.2.Pairwise fun a b => withinKey a ≤ withinKey b) ∧
    (∀ p ∈ _group_by_month confs, p.2.Pairwise fun a b =>
      ¬(strTruthy a.startDate = false ∧ strTruthy b.startDate = true)) := by
  have hsorted :
      ((_group_by_month confs).map Prod.fst).Pairwise
        (fun a b => monthSortKey a ≤ monthSortKey b) := by
    rw [group_by_month_eq]
    refine List.pairwise_map.mpr ?_
    exact (sortAsc_sorted_perm
      (fun p : String × List Conference => monthSortKey p.1) _).1
  refine ⟨?_, ?_, hsorted, ?_, ?_, ?_⟩
  · intro c hc hdate
    have hkc : monthKeyOf c = "March 2026" := by
      unfold monthKeyOf
      rw [hdate]
      rfl
    exact hkc ▸ group_by_month_mem confs c hc
  · intro c hc hdate
    have hkc : monthKeyOf c = "TBD" := by
      unfold monthKeyOf
      rw [hdate]
    exact hkc ▸ group_by_month_mem confs c hc
  · intro hTBD
    rcases hlast : ((_group_by_month confs).map Prod.fst).getLast? with _ | b
    · rw [List.getLast?_eq_none_iff] at hlast
      rw [hlast] at hTBD
      cases hTBD
    · by_cases hb : b = "TBD"
      · rw [hb]
      · exfalso
        have hle := pairwise_rel_getLast (fun a b => monthSortKey a ≤ monthSortKey b)
          _ hsorted "TBD" hTBD b hlast (fun he => hb he.symm)
        have hbmem := List.mem_of_getLast?_eq_some hlast
        have hlt := key_lt_TBD confs hw b hbmem hb
        exact absurd hle (not_le_of_lt hlt)
  · intro p hp
    obtain ⟨g, hg, hpg⟩ := group_by_month_src confs p hp
    rw [hpg]
    exact (sortAsc_sorted_perm withinKey g.2).1
  · intro p hp
    obtain ⟨g, hg, hpg⟩ := group_by_month_src confs p hp
    have hmem : ∀ x ∈ p.2, x ∈ g.2 := by
      intro x hx
      rw [hpg] at hx
      exact (List.perm_insertionSort _ _).mem_iff.mp hx
    refine List.pairwise_of_forall_mem_list ?_
    intro a ha b hb
    rintro ⟨hfa, htb⟩
    have h1 : g.1 ≠ "TBD" :=
      (bucket_homogeneous confs hw g hg b (hmem b hb)).mp htb
    have h2 : strTruthy a.startDate = true :=
      (bucket_homogeneous confs hw g hg a (hmem a ha)).mpr h1
    rw [hfa] at h2
    cases h2

/-- Witness records for the month-grouping theorem. -/
def c9wA : Conference := { startDate := some "2026-03-05" }

/-- See `c9wA`. -/
def c9wB : Conference := {}

/-- See `c9wA`. -/
def c9w : List Conference := [c9wA, c9wB]

set_option maxRecDepth 8000 in
/-- The month-grouping theorem applied to a two-record input. -/
theorem c9_group_by_month_order_witness :
    (∃ b, ("March 2026", b) ∈ _group_by_month c9w ∧ c9wA ∈ b) ∧
    (∃ b, ("TBD", b) ∈ _group_by_month c9w ∧ c9wB ∈ b) ∧
    ((_group_by_month c9w).map Prod.fst).getLast? = some "TBD" := by
  have h := c9_group_by_month_order c9w (by
    intro c hc s hs hne
    rcases List.mem_cons.mp hc with rfl | hc
    · refine ⟨2026, 3, 5, ?_, by omega, by omega⟩
      have hs2 : some "2026-03-05" = some s := hs
      injection hs2 with hs2
      rw [← hs2]
      rfl
    · rcases List.mem_singleton.mp hc with rfl
      exact absurd hs (by simp [c9wB]))
  obtain ⟨bB, hbB, hcB⟩ :=
    h.2.1 c9wB (List.mem_cons_of_mem _ (List.mem_singleton_self _)) rfl
  exact ⟨h.1 c9wA (List.mem_cons_self _ _) rfl, ⟨bB, hbB, hcB⟩,
    h.2.2.2.1 (List.mem_map_of_mem Prod.fst hbB)⟩

/-- The records that break the ordering claims: an unparseable date, an
undated record, a year-9999 date, and a three-digit-year date. -/
def c9xA : Conference := { startDate := some "invalid" }

/-- See `c9xA`. -/
def c9xB : Conference := {}

/-- See `c9xA`. -/
def c9xC : Conference := { startDate := some "9999-12-31" }

/-- See `c9xA`. -/
def c9xD : Conference := { startDate := some "0999-05-01" }

/-- See `c9xA`. -/
def c9x : List Conference := [c9xA, c9xB, c9xC, c9xD]

set_option maxRecDepth 10000 in
/-- **C9 counterexample.** On this input the `"TBD"` bucket is not last
(the year-9999 key `"December 9999"` and the key `"May 999"`, unparseable
as `%B %Y`, share its sort key and follow it), and inside the `"TBD"`
bucket the undated record precedes the dated one, because the sentinel
`"9999-12-31"` sorts before the string `"invalid"`. -/
theorem c9_group_by_month_counterexample :
    (_group_by_month c9x).map (fun p => (p.1, p.2.map fun c => c.startDate)) =
      [("TBD", [none, some "invalid"]), ("December 9999", [some "9999-12-31"]),
       ("May 999", [some "0999-05-01"])] ∧
    ((_group_by_month c9x).map Prod.fst).getLast? ≠ some "TBD" := by
  have hAB : ¬ (withinKey c9xA ≤ withinKey c9xB) := by
    show ¬ (("invalid" : String) ≤ "9999-12-31")
    exact not_le_of_lt (String.lt_iff_toList_lt.mpr (List.Lex.rel (by decide)))
  have hs1 : ([c9xA, c9xB].insertionSort fun a b => withinKey a ≤ withinKey b) =
      [c9xB, c9xA] := by
    simp only [List.insertionSort, List.orderedInsert]
    split_ifs
    rfl
  have hM : ((groupFold monthKeyOf c9x).map fun g =>
      (g.1, g.2.insertionSort fun a b => withinKey a ≤ withinKey b)) =
      [("TBD", [c9xB, c9xA]), ("December 9999", [c9xC]), ("May 999", [c9xD])] := by
    rw [show groupFold monthKeyOf c9x =
      [("TBD", [c9xA, c9xB]), ("December 9999", [c9xC]), ("May 999", [c9xD])] from rfl]
    simp only [List.map_cons, List.map_nil]
    rw [hs1]
    rfl
  have hout : _group_by_month c9x =
      [("TBD", [c9xB, c9xA]), ("December 9999", [c9xC]), ("May 999", [c9xD])] := by
    rw [group_by_month_eq, hM]
    simp only [List.insertionSort, List.orderedInsert]
    split_ifs with h23
    · simp only [List.orderedInsert]
      split_ifs with h12 h13
      · rfl
      · exact absurd (le_refl ("9999-12" : String)) h12
      · exact absurd (le_refl ("9999-12" : String)) h12
    · exact absurd (le_refl ("9999-12" : String)) h23
  refine ⟨?_, ?_⟩
  · rw [hout]
    rfl
  · rw [hout]
    decide

end ConfScout
